import Mathlib

/-!
# Verification of the TP_NOSQL analytics/admin layer

Shallow embedding of the CouchDB client (`src/database.py`), the analytics
engine (`src/analytics.py`) and the admin bulk-transfer tool
(`scripts/admin.py`).  Every operation that performs HTTP I/O is modelled as
a pure function taking the fetched results (or the store's response) as an
explicit argument; numbers occurring in JSON documents are modelled as
rationals, and Python's `round(x, 2)` as exact half-even rounding at two
decimal places.
-/

/-- The failure payload carried by every `{"success": False, ...}` dictionary
returned across component boundaries (`error` and `message` keys). -/
structure ErrInfo where
  error : String
  message : String
deriving DecidableEq, Repr

/-- A tagged success/failure result, the shape of every `{"success": ...}`
dictionary returned by `CouchDBClient`, `AnalyticsEngine` and `CouchDBAdmin`. -/
inductive Result (α : Type) where
  | ok : α → Result α
  | err : ErrInfo → Result α
deriving DecidableEq, Repr

namespace Result

def getOk : Result α → Option α
  | .ok a => some a
  | .err _ => none

def isOk : Result α → Bool
  | .ok _ => true
  | .err _ => false

end Result

/-- Round a rational to the nearest integer, ties to even — the behaviour of
Python's `round` on exact decimal values. -/
def roundHalfEven (q : ℚ) : ℤ :=
  let f := ⌊q⌋
  let r := q - (f : ℚ)
  if r < 1/2 then f
  else if 1/2 < r then f + 1
  else if f % 2 = 0 then f else f + 1

/-- Python's `round(x, 2)`: round to two decimal places, ties to even. -/
def round2 (q : ℚ) : ℚ := (roundHalfEven (q * 100) : ℚ) / 100

theorem roundHalfEven_intCast (n : ℤ) : roundHalfEven (n : ℚ) = n := by
  norm_num [roundHalfEven]

/-- `round2` is the identity on exact two-decimal values. -/
theorem round2_intCast_div_100 (n : ℤ) : round2 ((n : ℚ) / 100) = (n : ℚ) / 100 := by
  have h : ((n : ℚ) / 100) * 100 = (n : ℚ) := by field_simp
  rw [round2, h, roundHalfEven_intCast]

namespace Analytics

/-- One entry of an order's `products` array, as read by the analytics code
(`product.get("product_id", ...)` etc.); every field may be absent. -/
structure LineItem where
  product_id : Option String := none
  product_name : Option String := none
  quantity : Option ℚ := none
deriving DecidableEq, Repr

/-- An order document as fetched by the analytics Mango queries
(fields `total`, `status`, `created_at`, `customer_id`, `products`); a missing
`products` field behaves as `[]` because the code always reads it with
`order.get("products", [])`. -/
structure OrderDoc where
  total : Option ℚ := none
  status : Option String := none
  created_at : Option String := none
  customer_id : Option String := none
  products : List LineItem := []
deriving DecidableEq, Repr

/-- `status_counts[status] = status_counts.get(status, 0) + 1` on a dict,
modelled as an insertion-ordered association list. -/
def bump (m : List (String × Nat)) (s : String) : List (String × Nat) :=
  match m with
  | [] => [(s, 1)]
  | (k, c) :: t => if k = s then (k, c + 1) :: t else (k, c) :: bump t s

/-- The `status_counts` histogram loop of `get_sales_summary`
(`status = order.get("status", "unknown")`). -/
def statusCounts (orders : List OrderDoc) : List (String × Nat) :=
  orders.foldl (fun m o => bump m (o.status.getD "unknown")) []

/-- The `data` dictionary returned by `AnalyticsEngine.get_sales_summary`. -/
structure SalesSummary where
  total_orders : Nat
  total_revenue : ℚ
  average_order_value : ℚ
  orders_by_status : List (String × Nat)
deriving DecidableEq, Repr

/-- `AnalyticsEngine.get_sales_summary`, as a function of the result of the
`db.find` call for `{"type": "order"}`. -/
def get_sales_summary (res : Result (List OrderDoc)) : Result SalesSummary :=
  match res with
  | .err e => .err e
  | .ok orders =>
    let total_orders := orders.length
    let total_revenue := (orders.map (fun o => o.total.getD 0)).sum
    let status_counts := statusCounts orders
    let avg_order_value : ℚ :=
      if total_orders > 0 then total_revenue / (total_orders : ℚ) else 0
    .ok { total_orders := total_orders
          total_revenue := round2 total_revenue
          average_order_value := round2 avg_order_value
          orders_by_status := status_counts }

theorem bump_lookup (m : List (String × Nat)) (t s : String) :
    (((bump m t).lookup s).getD 0 : Nat)
      = ((m.lookup s).getD 0) + (if t = s then 1 else 0) := by
  induction m with
  | nil =>
    by_cases h : s = t
    · subst h; simp [bump, List.lookup]
    · have h' : ¬ t = s := fun hh => h hh.symm
      have hb : (s == t) = false := by simp [h]
      simp [bump, List.lookup, hb, h']
  | cons p tl ih =>
    obtain ⟨k, c⟩ := p
    by_cases hk : k = t
    · subst hk
      by_cases hs : s = k
      · subst hs
        simp [bump, List.lookup]
      · have hks : (s == k) = false := by simp [hs]
        have hts : ¬ k = s := fun hh => hs hh.symm
        simp [bump, List.lookup, hks, hts]
    · have hbk : bump ((k, c) :: tl) t = (k, c) :: bump tl t := by
        simp [bump, hk]
      rw [hbk]
      by_cases hs : s = k
      · have hts : ¬ t = s := fun hh => hk (hs.symm.trans hh.symm)
        subst hs
        simp [List.lookup, hts]
      · have hks : (s == k) = false := by simp [hs]
        simp [List.lookup, hks, ih]

theorem statusCounts_go (orders : List OrderDoc) (m : List (String × Nat)) (s : String) :
    (((orders.foldl (fun m o => bump m (o.status.getD "unknown")) m).lookup s).getD 0 : Nat)
      = ((m.lookup s).getD 0)
        + orders.countP (fun o => o.status.getD "unknown" == s) := by
  induction orders generalizing m with
  | nil => simp
  | cons o tl ih =>
    simp only [List.foldl_cons, List.countP_cons]
    rw [ih, bump_lookup]
    by_cases h : o.status.getD "unknown" = s
    · simp only [h, if_true, beq_self_eq_true]
      omega
    · have hb : (o.status.getD "unknown" == s) = false := by simp [h]
      simp only [h, hb, Bool.false_eq_true, if_false]
      omega

theorem statusCounts_lookup (orders : List OrderDoc) (s : String) :
    (((statusCounts orders).lookup s).getD 0 : Nat)
      = (orders.filter (fun o => o.status.getD "unknown" == s)).length := by
  rw [statusCounts, statusCounts_go, ← List.countP_eq_length_filter]
  simp [List.lookup]

end Analytics

/-- **C1 (counterexample)**: the claim equates the reported `total_revenue`
with the raw sum of the stored totals and `average_order_value` with
`total_revenue / total_orders`, but `get_sales_summary` rounds both to two
decimal places: an order with total `0.001` reports revenue `0.0`, and three
orders totalling `1` report an average of `0.33`, not `1/3`. -/
theorem C1_counterexample :
    (Result.getOk (Analytics.get_sales_summary
        (Result.ok [{ total := some (1/1000) }]))).map
          Analytics.SalesSummary.total_revenue ≠ some ((1 : ℚ)/1000)
  ∧ (Result.getOk (Analytics.get_sales_summary
        (Result.ok [{ total := some 1 }, { total := some 0 }, { total := some 0 }]))).map
          Analytics.SalesSummary.average_order_value ≠ some ((1 : ℚ)/3) := by
  constructor
  · simp only [Analytics.get_sales_summary, Result.getOk, Option.map_some', ne_eq,
      Option.some.injEq]
    norm_num [round2, roundHalfEven]
  · simp only [Analytics.get_sales_summary, Result.getOk, Option.map_some', ne_eq,
      Option.some.injEq]
    norm_num [round2, roundHalfEven]

/-- **C1 (amended)**: for every list of fetched order documents the sales
summary reports `total_orders` equal to the number of orders,
`total_revenue` equal to the sum of the stored `total` fields (missing totals
contributing 0, never recomputed from line items) rounded to two decimal
places, `average_order_value` equal to that raw sum divided by `total_orders`
rounded to two decimal places when `total_orders > 0` and `0` when
`total_orders = 0` (no division fault), and `orders_by_status` equal to the
histogram of the orders' `status` values (missing status counted as
`"unknown"`); the result never depends on the orders' line items. -/
theorem C1_sales_summary (orders : List Analytics.OrderDoc) :
    ∃ s, Analytics.get_sales_summary (Result.ok orders) = Result.ok s
      ∧ s.total_orders = orders.length
      ∧ s.total_revenue = round2 ((orders.map (fun o => o.total.getD 0)).sum)
      ∧ (0 < orders.length →
          s.average_order_value
            = round2 (((orders.map (fun o => o.total.getD 0)).sum) / (orders.length : ℚ)))
      ∧ (orders.length = 0 → s.average_order_value = 0)
      ∧ (∀ st, ((s.orders_by_status.lookup st).getD 0 : Nat)
            = (orders.filter (fun o => o.status.getD "unknown" == st)).length)
      ∧ (∀ f : Analytics.OrderDoc → List Analytics.LineItem,
          Analytics.get_sales_summary
              (Result.ok (orders.map (fun o => { o with products := f o })))
            = Analytics.get_sales_summary (Result.ok orders)) := by
  refine ⟨{ total_orders := orders.length
            total_revenue := round2 ((orders.map (fun o => o.total.getD 0)).sum)
            average_order_value := round2 (if orders.length > 0
              then ((orders.map (fun o => o.total.getD 0)).sum) / (orders.length : ℚ) else 0)
            orders_by_status := Analytics.statusCounts orders },
         rfl, rfl, rfl, fun h => ?_, fun h => ?_, fun st => ?_, fun f => ?_⟩
  · simp only [gt_iff_lt, if_pos h]
  · rw [h]
    simp only [gt_iff_lt, lt_self_iff_false, if_false]
    norm_num [round2, roundHalfEven]
  · exact Analytics.statusCounts_lookup orders st
  · have h1 : (orders.map (fun o => { o with products := f o })).length = orders.length :=
      List.length_map _ _
    have h2 : (orders.map (fun o => ({ o with products := f o } : Analytics.OrderDoc))).map
        (fun o => o.total.getD 0) = orders.map (fun o => o.total.getD 0) := by
      rw [List.map_map]
      rfl
    have h3 : Analytics.statusCounts (orders.map (fun o => { o with products := f o }))
        = Analytics.statusCounts orders := by
      rw [Analytics.statusCounts, List.foldl_map]
      rfl
    simp only [Analytics.get_sales_summary, h1, h2, h3]

/-- Witness for `C1_sales_summary` at two concrete orders. -/
theorem C1_sales_summary_witness :
    ∃ s, Analytics.get_sales_summary (Result.ok
        ([{ total := some 100, status := some "delivered" },
          { total := some 50, status := some "pending" }] : List Analytics.OrderDoc))
        = Result.ok s
      ∧ s.total_orders = 2
      ∧ s.average_order_value = round2 ((150 : ℚ) / 2)
      ∧ ((s.orders_by_status.lookup "delivered").getD 0 : Nat) = 1 := by
  obtain ⟨s, h1, h2, h3, h4, h5, h6, h7⟩ :=
    C1_sales_summary [{ total := some 100, status := some "delivered" },
                      { total := some 50, status := some "pending" }]
  refine ⟨s, h1, ?_, ?_, ?_⟩
  · rw [h2]
    rfl
  · rw [h4 (by decide)]
    norm_num [round2, roundHalfEven]
  · rw [h6 "delivered"]
    rfl

namespace Analytics

/-- The per-product accumulator dictionary value of `get_top_products`
(`{"name": ..., "total_quantity": ..., "order_count": ...}`). -/
structure ProductAgg where
  name : String
  total_quantity : ℚ
  order_count : Nat
deriving DecidableEq, Repr

/-- The defaulted field reads of the `get_top_products` loop:
`product.get("product_id", "unknown")`, `product.get("product_name",
"Unknown Product")`, `product.get("quantity", 1)`. -/
def itemPid (it : LineItem) : String := it.product_id.getD "unknown"

def itemName (it : LineItem) : String := it.product_name.getD "Unknown Product"

def itemQty (it : LineItem) : ℚ := it.quantity.getD 1

/-- One line-item step of the `product_counts` accumulation: Python dict
semantics — an absent key is appended at the end (insertion order), an
existing key is updated in place (`total_quantity += quantity`,
`order_count += 1`). -/
def bumpProduct (m : List (String × ProductAgg)) (pid pname : String) (qty : ℚ) :
    List (String × ProductAgg) :=
  match m with
  | [] => [(pid, { name := pname, total_quantity := qty, order_count := 1 })]
  | (k, d) :: t =>
    if k = pid then
      (k, { d with total_quantity := d.total_quantity + qty,
                   order_count := d.order_count + 1 }) :: t
    else (k, d) :: bumpProduct t pid pname qty

/-- The `product_counts` dictionary built by the nested loops of
`get_top_products`. -/
def productCounts (orders : List OrderDoc) : List (String × ProductAgg) :=
  orders.foldl
    (fun m o => o.products.foldl
      (fun m it => bumpProduct m (itemPid it) (itemName it) (itemQty it)) m) []

/-- The comparison realised by Python's stable
`sorted(..., key=lambda x: x[1]["total_quantity"], reverse=True)`: a stable
descending sort is exactly a sort by (quantity descending, original position
ascending), which is a total linear preorder. -/
def topLe (a b : Nat × (String × ProductAgg)) : Bool :=
  decide (b.2.2.total_quantity < a.2.2.total_quantity
    ∨ (a.2.2.total_quantity = b.2.2.total_quantity ∧ a.1 ≤ b.1))

/-- The `sorted_products` list of `get_top_products` (before truncation). -/
def sortedProducts (orders : List OrderDoc) : List (String × ProductAgg) :=
  (((productCounts orders).enum).mergeSort topLe).map Prod.snd

/-- `AnalyticsEngine.get_top_products`, as a function of the result of the
`db.find` call and of the `limit` argument; the returned `data` is the
sorted, truncated list of `(product_id, aggregate)` pairs. -/
def get_top_products (res : Result (List OrderDoc)) (limit : Nat) :
    Result (List (String × ProductAgg)) :=
  match res with
  | .err e => .err e
  | .ok orders => .ok ((sortedProducts orders).take limit)

/-- Spec side (from the claim's words): the stream of all orders' line items,
in iteration order. -/
def allItems (orders : List OrderDoc) : List LineItem :=
  (orders.map (fun o => o.products)).flatten

/-- Spec side: total quantity accumulated for a product id — the sum of the
quantities of its line-item occurrences. -/
def spec_total_quantity (orders : List OrderDoc) (pid : String) : ℚ :=
  (((allItems orders).filter (fun it => itemPid it == pid)).map itemQty).sum

/-- Spec side: order count for a product id — the number of line-item
occurrences (an order listing a product twice counts twice). -/
def spec_order_count (orders : List OrderDoc) (pid : String) : Nat :=
  ((allItems orders).filter (fun it => itemPid it == pid)).length

/-- Spec side: product ids in first-encounter order. -/
def spec_encounter (orders : List OrderDoc) : List String :=
  (allItems orders).foldl
    (fun acc it => if itemPid it ∈ acc then acc else acc ++ [itemPid it]) []

theorem bumpProduct_lookup (m : List (String × ProductAgg)) (pid pname : String)
    (qty : ℚ) (p : String) :
    (bumpProduct m pid pname qty).lookup p =
      if p = pid then
        some (match m.lookup pid with
          | some d => { d with total_quantity := d.total_quantity + qty,
                               order_count := d.order_count + 1 }
          | none => { name := pname, total_quantity := qty, order_count := 1 })
      else m.lookup p := by
  induction m with
  | nil =>
    by_cases h : p = pid
    · subst h; simp [bumpProduct, List.lookup]
    · have hb : (p == pid) = false := by simp [h]
      simp [bumpProduct, List.lookup, h, hb]
  | cons e t ih =>
    obtain ⟨k, d⟩ := e
    by_cases hk : k = pid
    · subst hk
      by_cases h : p = k
      · subst h; simp [bumpProduct, List.lookup]
      · have hb : (p == k) = false := by simp [h]
        simp [bumpProduct, List.lookup, h, hb]
    · have hbk : bumpProduct ((k, d) :: t) pid pname qty
          = (k, d) :: bumpProduct t pid pname qty := by
        simp [bumpProduct, hk]
      rw [hbk]
      by_cases h : p = k
      · subst h
        have hp : ¬ p = pid := fun hh => hk (hh ▸ rfl)
        simp [List.lookup, hp]
      · have hb : (p == k) = false := by simp [h]
        have hb2 : (pid == k) = false := by
          simp only [beq_eq_false_iff_ne, ne_eq]
          exact fun hh => hk hh.symm
        simp [List.lookup, hb, hb2, ih]

theorem bumpProduct_keys (m : List (String × ProductAgg)) (pid pname : String) (qty : ℚ) :
    (bumpProduct m pid pname qty).map Prod.fst =
      if pid ∈ m.map Prod.fst then m.map Prod.fst else m.map Prod.fst ++ [pid] := by
  induction m with
  | nil => simp [bumpProduct]
  | cons e t ih =>
    obtain ⟨k, d⟩ := e
    by_cases hk : k = pid
    · subst hk; simp [bumpProduct]
    · have hkp : ¬ pid = k := fun hh => hk hh.symm
      by_cases hm : pid ∈ t.map Prod.fst
      · simp [bumpProduct, hk, ih, hm, hkp]
      · simp [bumpProduct, hk, ih, hm, hkp]

theorem bumpProduct_nodup_keys (m : List (String × ProductAgg)) (pid pname : String)
    (qty : ℚ) (h : (m.map Prod.fst).Nodup) :
    ((bumpProduct m pid pname qty).map Prod.fst).Nodup := by
  rw [bumpProduct_keys]
  by_cases hm : pid ∈ m.map Prod.fst
  · simpa [hm] using h
  · simp only [hm, if_false]
    simp [List.nodup_append, h, hm]

end Analytics

namespace Analytics

theorem productCounts_eq_foldl (orders : List OrderDoc) :
    productCounts orders
      = (allItems orders).foldl
          (fun m it => bumpProduct m (itemPid it) (itemName it) (itemQty it)) [] := by
  rw [productCounts, allItems, List.foldl_flatten, List.foldl_map]

theorem stream_keys (ts : List LineItem) (m : List (String × ProductAgg)) :
    ((ts.foldl (fun m it => bumpProduct m (itemPid it) (itemName it) (itemQty it)) m).map
        Prod.fst)
      = ts.foldl (fun acc it => if itemPid it ∈ acc then acc else acc ++ [itemPid it])
          (m.map Prod.fst) := by
  induction ts generalizing m with
  | nil => rfl
  | cons it ts ih =>
    simp only [List.foldl_cons]
    rw [ih, bumpProduct_keys]

theorem stream_nodup (ts : List LineItem) (m : List (String × ProductAgg))
    (h : (m.map Prod.fst).Nodup) :
    ((ts.foldl (fun m it => bumpProduct m (itemPid it) (itemName it) (itemQty it)) m).map
        Prod.fst).Nodup := by
  induction ts generalizing m with
  | nil => exact h
  | cons it ts ih =>
    simp only [List.foldl_cons]
    exact ih _ (bumpProduct_nodup_keys _ _ _ _ h)

theorem stream_lookup (ts : List LineItem) (m : List (String × ProductAgg))
    (p : String) (d : ProductAgg)
    (h : (ts.foldl (fun m it => bumpProduct m (itemPid it) (itemName it) (itemQty it)) m).lookup p
        = some d) :
    d.total_quantity = ((m.lookup p).elim 0 ProductAgg.total_quantity)
        + ((ts.filter (fun it => itemPid it == p)).map itemQty).sum
      ∧ d.order_count = ((m.lookup p).elim 0 ProductAgg.order_count)
        + (ts.filter (fun it => itemPid it == p)).length := by
  induction ts generalizing m with
  | nil =>
    simp only [List.foldl_nil] at h
    simp [h]
  | cons it ts ih =>
    simp only [List.foldl_cons] at h
    have hrec := ih _ h
    rw [bumpProduct_lookup] at hrec
    by_cases hp : p = itemPid it
    · have hb : (itemPid it == p) = true := by simp [hp]
      rw [if_pos hp, ← hp] at hrec
      cases hm : m.lookup p with
      | some d0 =>
        rw [hm] at hrec
        simp only [List.filter_cons, hb, if_true, List.map_cons, List.sum_cons,
          List.length_cons, hm, Option.elim_some] at hrec ⊢
        obtain ⟨h1, h2⟩ := hrec
        refine ⟨by rw [h1]; ring, by rw [h2]; omega⟩
      | none =>
        rw [hm] at hrec
        simp only [List.filter_cons, hb, if_true, List.map_cons, List.sum_cons,
          List.length_cons, hm, Option.elim_some, Option.elim_none] at hrec ⊢
        obtain ⟨h1, h2⟩ := hrec
        refine ⟨by rw [h1]; ring, by rw [h2]; omega⟩
    · have hb : (itemPid it == p) = false := by
        simp only [beq_eq_false_iff_ne, ne_eq]
        exact fun hh => hp hh.symm
      rw [if_neg hp] at hrec
      simpa [List.filter_cons, hb] using hrec

theorem productCounts_keys (orders : List OrderDoc) :
    (productCounts orders).map Prod.fst = spec_encounter orders := by
  rw [productCounts_eq_foldl, stream_keys]
  rfl

theorem productCounts_nodup (orders : List OrderDoc) :
    ((productCounts orders).map Prod.fst).Nodup := by
  rw [productCounts_eq_foldl]
  exact stream_nodup _ _ (by simp)

theorem productCounts_lookup (orders : List OrderDoc) (p : String) (d : ProductAgg)
    (h : (productCounts orders).lookup p = some d) :
    d.total_quantity = spec_total_quantity orders p
      ∧ d.order_count = spec_order_count orders p := by
  rw [productCounts_eq_foldl] at h
  have := stream_lookup _ _ _ _ h
  simpa [spec_total_quantity, spec_order_count] using this

theorem mem_lookup_of_nodup (m : List (String × ProductAgg))
    (h : (m.map Prod.fst).Nodup) (p : String) (d : ProductAgg)
    (hm : (p, d) ∈ m) : m.lookup p = some d := by
  induction m with
  | nil => cases hm
  | cons e t ih =>
    obtain ⟨k, v⟩ := e
    simp only [List.map_cons, List.nodup_cons] at h
    rcases List.mem_cons.mp hm with heq | htl
    · obtain ⟨rfl, rfl⟩ := Prod.mk.injEq .. ▸ heq
      simp [List.lookup]
    · have hpk : ¬ p = k := by
        intro hh
        subst hh
        exact h.1 (List.mem_map.mpr ⟨(p, d), htl, rfl⟩)
      have hb : (p == k) = false := by simp [hpk]
      simp only [List.lookup, hb]
      exact ih h.2 htl

theorem topLe_trans (a b c : Nat × (String × ProductAgg))
    (hab : topLe a b) (hbc : topLe b c) : topLe a c := by
  simp only [topLe, decide_eq_true_eq] at *
  rcases hab with h1 | ⟨h1, h1'⟩ <;> rcases hbc with h2 | ⟨h2, h2'⟩
  · exact Or.inl (lt_trans h2 h1)
  · exact Or.inl (h2 ▸ h1)
  · exact Or.inl (h1 ▸ h2)
  · exact Or.inr ⟨h1.trans h2, le_trans h1' h2'⟩

theorem topLe_total (a b : Nat × (String × ProductAgg)) : topLe a b || topLe b a := by
  simp only [topLe, Bool.or_eq_true, decide_eq_true_eq]
  rcases lt_trichotomy a.2.2.total_quantity b.2.2.total_quantity with h | h | h
  · exact Or.inr (Or.inl h)
  · rcases Nat.le_total a.1 b.1 with hi | hi
    · exact Or.inl (Or.inr ⟨h, hi⟩)
    · exact Or.inr (Or.inr ⟨h.symm, hi⟩)
  · exact Or.inl (Or.inl h)

theorem enum_pairwise_lt (l : List (String × ProductAgg)) :
    l.enum.Pairwise (fun a b => a.1 < b.1) := by
  have h := List.pairwise_lt_range l.length
  rw [← List.enum_map_fst l] at h
  exact List.pairwise_map.mp h

theorem sorted_nodup_fst (orders : List OrderDoc) :
    (((productCounts orders).enum.mergeSort topLe).map Prod.fst).Nodup := by
  have hp : List.Perm ((productCounts orders).enum.mergeSort topLe) ((productCounts orders).enum) :=
    List.mergeSort_perm _ _
  exact ((hp.map Prod.fst).nodup_iff).mpr (List.nodup_enum_map_fst _)

end Analytics

namespace Analytics

/-- Stability of the descending sort: for each quantity value, the entries
carrying that quantity appear in the output in exactly their accumulation
(first-encounter) order. -/
theorem sorted_filter_stable (orders : List OrderDoc) (q : ℚ) :
    (sortedProducts orders).filter (fun e => e.2.total_quantity == q)
      = (productCounts orders).filter (fun e => e.2.total_quantity == q) := by
  have hperm : List.Perm ((productCounts orders).enum.mergeSort topLe)
      ((productCounts orders).enum) := List.mergeSort_perm _ _
  have hpair := List.sorted_mergeSort topLe_trans topLe_total
    ((productCounts orders).enum)
  have hfil := hperm.filter (fun x => x.2.2.total_quantity == q)
  have hA : (((productCounts orders).enum).filter
      (fun x => x.2.2.total_quantity == q)).Pairwise (fun a b => a.1 < b.1) :=
    (enum_pairwise_lt _).filter _
  have hsub : List.Sublist
      (((productCounts orders).enum.mergeSort topLe).filter
        (fun x => x.2.2.total_quantity == q))
      ((productCounts orders).enum.mergeSort topLe) := List.filter_sublist _
  have hnd : ((((productCounts orders).enum.mergeSort topLe).filter
      (fun x => x.2.2.total_quantity == q)).map Prod.fst).Nodup :=
    List.Nodup.sublist (hsub.map Prod.fst) (sorted_nodup_fst orders)
  have hne : (((productCounts orders).enum.mergeSort topLe).filter
      (fun x => x.2.2.total_quantity == q)).Pairwise (fun a b => a.1 ≠ b.1) :=
    List.pairwise_map.mp hnd
  have hBfull := (hpair.filter (fun x => x.2.2.total_quantity == q)).and hne
  have hB : (((productCounts orders).enum.mergeSort topLe).filter
      (fun x => x.2.2.total_quantity == q)).Pairwise (fun a b => a.1 < b.1) := by
    refine hBfull.imp_of_mem ?_
    intro a b ha hb hr
    obtain ⟨hab, hne'⟩ := hr
    have hqa : a.2.2.total_quantity = q := by
      simpa using (List.mem_filter.mp ha).2
    have hqb : b.2.2.total_quantity = q := by
      simpa using (List.mem_filter.mp hb).2
    simp only [topLe, decide_eq_true_eq] at hab
    rcases hab with hlt | ⟨_, hle⟩
    · rw [hqa, hqb] at hlt
      exact absurd hlt (lt_irrefl q)
    · exact lt_of_le_of_ne hle hne'
  haveI : IsAntisymm (ℕ × String × ProductAgg) (fun a b => a.1 < b.1) :=
    ⟨fun a b h1 h2 => (Nat.lt_asymm h1 h2).elim⟩
  have hEq := List.eq_of_perm_of_sorted hfil hB hA
  have hproj1 : (sortedProducts orders).filter (fun e => e.2.total_quantity == q)
      = (((productCounts orders).enum.mergeSort topLe).filter
          (fun x => x.2.2.total_quantity == q)).map Prod.snd := by
    rw [sortedProducts, List.filter_map]
    rfl
  have hproj2 : (productCounts orders).filter (fun e => e.2.total_quantity == q)
      = ((((productCounts orders).enum).filter
          (fun x => x.2.2.total_quantity == q)).map Prod.snd) := by
    conv_lhs => rw [← List.enum_map_snd (productCounts orders)]
    rw [List.filter_map]
    rfl
  rw [hproj1, hproj2, hEq]

end Analytics

/-- **C2**: for every list of fetched orders and every limit, `get_top_products`
accumulates per product id the total quantity (sum of line-item quantities,
default 1) and the order count (number of line-item occurrences — a product
listed twice in one order counts twice); it sorts the accumulated entries
descending by total quantity with ties in first-encounter order (stable sort)
and truncates to the requested limit. -/
theorem C2_top_products (orders : List Analytics.OrderDoc) (limit : Nat) :
    Analytics.get_top_products (Result.ok orders) limit
        = Result.ok ((Analytics.sortedProducts orders).take limit)
      ∧ List.Perm (Analytics.sortedProducts orders) (Analytics.productCounts orders)
      ∧ (Analytics.productCounts orders).map Prod.fst = Analytics.spec_encounter orders
      ∧ (∀ pid d, (pid, d) ∈ Analytics.sortedProducts orders →
            d.total_quantity = Analytics.spec_total_quantity orders pid
              ∧ d.order_count = Analytics.spec_order_count orders pid)
      ∧ (Analytics.sortedProducts orders).Pairwise
            (fun a b => b.2.total_quantity ≤ a.2.total_quantity)
      ∧ (∀ q : ℚ,
            (Analytics.sortedProducts orders).filter (fun e => e.2.total_quantity == q)
              = (Analytics.productCounts orders).filter (fun e => e.2.total_quantity == q))
      ∧ ((Analytics.sortedProducts orders).take limit).length
          = min limit (Analytics.spec_encounter orders).length := by
  refine ⟨rfl, ?_, Analytics.productCounts_keys orders, ?_, ?_,fun q =>
    Analytics.sorted_filter_stable orders q, ?_⟩
  · have h := (List.mergeSort_perm ((Analytics.productCounts orders).enum)
      Analytics.topLe).map Prod.snd
    rwa [List.enum_map_snd] at h
  · intro pid d hmem
    rw [Analytics.sortedProducts] at hmem
    obtain ⟨x, hx, hx2⟩ := List.mem_map.mp hmem
    have hxe : x ∈ (Analytics.productCounts orders).enum := List.mem_mergeSort.mp hx
    have hpc : (pid, d) ∈ Analytics.productCounts orders := by
      have : x.2 ∈ ((Analytics.productCounts orders).enum).map Prod.snd :=
        List.mem_map.mpr ⟨x, hxe, rfl⟩
      rwa [List.enum_map_snd, hx2] at this
    exact Analytics.productCounts_lookup orders pid d
      (Analytics.mem_lookup_of_nodup _ (Analytics.productCounts_nodup orders) _ _ hpc)
  · have hpair := List.sorted_mergeSort Analytics.topLe_trans
      Analytics.topLe_total ((Analytics.productCounts orders).enum)
    rw [Analytics.sortedProducts]
    refine List.pairwise_map.mpr (hpair.imp ?_)
    intro a b hab
    simp only [Analytics.topLe, decide_eq_true_eq] at hab
    rcases hab with hlt | ⟨heq, _⟩
    · exact le_of_lt hlt
    · exact le_of_eq heq.symm
  · rw [List.length_take, Analytics.sortedProducts, List.length_map,
      List.length_mergeSort, List.enum_length]
    have hk := congrArg List.length (Analytics.productCounts_keys orders)
    rw [List.length_map] at hk
    rw [hk]

/-- Witness for `C2_top_products` at a concrete one-order, one-line-item input,
discharging the membership hypothesis of its accumulation clause. -/
theorem C2_top_products_witness :
    ∃ d : Analytics.ProductAgg,
      ("a", d) ∈ Analytics.sortedProducts [{ products := [{ product_id := some "a" }] }]
        ∧ d.total_quantity
            = Analytics.spec_total_quantity [{ products := [{ product_id := some "a" }] }] "a"
        ∧ d.order_count
            = Analytics.spec_order_count [{ products := [{ product_id := some "a" }] }] "a" := by
  obtain ⟨-, -, -, hmem, -, -, -⟩ :=
    C2_top_products [{ products := [{ product_id := some "a" }] }] 10
  have hm : ("a", ({ name := "Unknown Product", total_quantity := 1, order_count := 1 }
      : Analytics.ProductAgg))
      ∈ Analytics.sortedProducts [{ products := [{ product_id := some "a" }] }] := by
    simp [Analytics.sortedProducts, Analytics.productCounts, Analytics.bumpProduct,
      Analytics.itemPid, Analytics.itemName, Analytics.itemQty, List.enum, List.enumFrom]
  exact ⟨_, hm, hmem _ _ hm⟩

namespace Views

/-- A value flowing through the `sales_by_month` reduce function: raw rows
(emitted by the map phase as `{total, count: 1, status}`) and partial results
(`{total, count, delivered, pending, cancelled}`) share one JavaScript object
shape; absent numeric fields behave as 0 (`value.x || 0`) and the absent
`status` is `none`. -/
structure SalesRow where
  total : ℚ := 0
  count : Nat := 0
  status : Option String := none
  delivered : Nat := 0
  pending : Nat := 0
  cancelled : Nat := 0
deriving DecidableEq, Repr

/-- The `sales_by_month` reduce function of `setup_analytics_views`: starts
from an all-zero result and folds over `values`; the `rereduce` branch sums
the partial totals, counts and status counters directly, the first-level
branch adds `1` per row and increments the counter selected by the row's
`status`. -/
def salesReduce (rereduce : Bool) (values : List SalesRow) : SalesRow :=
  values.foldl
    (fun r v =>
      if rereduce then
        { r with total := r.total + v.total, count := r.count + v.count,
                 delivered := r.delivered + v.delivered,
                 pending := r.pending + v.pending,
                 cancelled := r.cancelled + v.cancelled }
      else
        { r with total := r.total + v.total, count := r.count + 1,
                 delivered := r.delivered + (if v.status == some "delivered" then 1 else 0),
                 pending := r.pending + (if v.status == some "pending" then 1 else 0),
                 cancelled := r.cancelled + (if v.status == some "cancelled" then 1 else 0) })
    { total := 0, count := 0, status := none, delivered := 0, pending := 0, cancelled := 0 }

theorem salesReduce_false_go (rows : List SalesRow) (r : SalesRow) :
    rows.foldl
      (fun r v =>
        { r with total := r.total + v.total, count := r.count + 1,
                 delivered := r.delivered + (if v.status == some "delivered" then 1 else 0),
                 pending := r.pending + (if v.status == some "pending" then 1 else 0),
                 cancelled := r.cancelled + (if v.status == some "cancelled" then 1 else 0) }) r
      = { total := r.total + (rows.map SalesRow.total).sum,
          count := r.count + rows.length,
          status := r.status,
          delivered := r.delivered + rows.countP (fun v => v.status == some "delivered"),
          pending := r.pending + rows.countP (fun v => v.status == some "pending"),
          cancelled := r.cancelled + rows.countP (fun v => v.status == some "cancelled") } := by
  induction rows generalizing r with
  | nil => simp
  | cons v t ih =>
    simp only [List.foldl_cons, ih, List.map_cons, List.sum_cons, List.countP_cons,
      List.length_cons, SalesRow.mk.injEq]
    refine ⟨by ring, by omega, trivial, by omega, by omega, by omega⟩

theorem salesReduce_false_eq (rows : List SalesRow) :
    salesReduce false rows
      = { total := (rows.map SalesRow.total).sum,
          count := rows.length,
          status := none,
          delivered := rows.countP (fun v => v.status == some "delivered"),
          pending := rows.countP (fun v => v.status == some "pending"),
          cancelled := rows.countP (fun v => v.status == some "cancelled") } := by
  have h := salesReduce_false_go rows
    { total := 0, count := 0, status := none, delivered := 0, pending := 0, cancelled := 0 }
  simp only [salesReduce]
  simpa using h

theorem salesReduce_true_go (rows : List SalesRow) (r : SalesRow) :
    rows.foldl
      (fun r v =>
        { r with total := r.total + v.total, count := r.count + v.count,
                 delivered := r.delivered + v.delivered,
                 pending := r.pending + v.pending,
                 cancelled := r.cancelled + v.cancelled }) r
      = { total := r.total + (rows.map SalesRow.total).sum,
          count := r.count + (rows.map SalesRow.count).sum,
          status := r.status,
          delivered := r.delivered + (rows.map SalesRow.delivered).sum,
          pending := r.pending + (rows.map SalesRow.pending).sum,
          cancelled := r.cancelled + (rows.map SalesRow.cancelled).sum } := by
  induction rows generalizing r with
  | nil => simp
  | cons v t ih =>
    simp only [List.foldl_cons, ih, List.map_cons, List.sum_cons, SalesRow.mk.injEq]
    refine ⟨by ring, by omega, trivial, by omega, by omega, by omega⟩

theorem salesReduce_true_eq (rows : List SalesRow) :
    salesReduce true rows
      = { total := (rows.map SalesRow.total).sum,
          count := (rows.map SalesRow.count).sum,
          status := none,
          delivered := (rows.map SalesRow.delivered).sum,
          pending := (rows.map SalesRow.pending).sum,
          cancelled := (rows.map SalesRow.cancelled).sum } := by
  have h := salesReduce_true_go rows
    { total := 0, count := 0, status := none, delivered := 0, pending := 0, cancelled := 0 }
  simp only [salesReduce]
  simpa using h

end Views

/-- **C3**: the `sales_by_month` reduce is associatively re-combinable: for
every partition of the raw rows into parts, reducing each part and then
re-reducing (`rereduce = true`) the partial results equals reducing all raw
rows in one pass; one-pass reduction is invariant under permutation of the
rows (a multiset property); and on the two spec rows
`{total:100, status:"delivered"}`, `{total:50, status:"pending"}` both
computation orders yield `{total:150, count:2, delivered:1, pending:1,
cancelled:0}`. -/
theorem C3_sales_reduce_rereduce :
    (∀ parts : List (List Views.SalesRow),
        Views.salesReduce true (parts.map (Views.salesReduce false))
          = Views.salesReduce false parts.flatten)
  ∧ (∀ rows rows' : List Views.SalesRow, List.Perm rows rows' →
        Views.salesReduce false rows = Views.salesReduce false rows')
  ∧ Views.salesReduce true
      ([[{ total := 100, count := 1, status := some "delivered" }],
        [{ total := 50, count := 1, status := some "pending" }]].map (Views.salesReduce false))
      = { total := 150, count := 2, status := none,
          delivered := 1, pending := 1, cancelled := 0 }
  ∧ Views.salesReduce false
      [{ total := 100, count := 1, status := some "delivered" },
       { total := 50, count := 1, status := some "pending" }]
      = { total := 150, count := 2, status := none,
          delivered := 1, pending := 1, cancelled := 0 } := by
  have hcountP : ∀ (p : Views.SalesRow → Bool) (L : List (List Views.SalesRow)),
      (L.flatten.countP p) = (L.map (fun l => l.countP p)).sum := by
    intro p L
    induction L with
    | nil => simp
    | cons l t ih => simp [List.countP_append, ih]
  have hgen : ∀ parts : List (List Views.SalesRow),
      Views.salesReduce true (parts.map (Views.salesReduce false))
        = Views.salesReduce false parts.flatten := by
    intro parts
    rw [Views.salesReduce_true_eq, Views.salesReduce_false_eq]
    have htot : (parts.map (Views.salesReduce false)).map Views.SalesRow.total
        = parts.map (fun p => (p.map Views.SalesRow.total).sum) := by
      rw [List.map_map]
      refine List.map_congr_left fun p _ => ?_
      rw [Function.comp_apply, Views.salesReduce_false_eq]
    have hcnt : (parts.map (Views.salesReduce false)).map Views.SalesRow.count
        = parts.map (fun p => p.length) := by
      rw [List.map_map]
      refine List.map_congr_left fun p _ => ?_
      rw [Function.comp_apply, Views.salesReduce_false_eq]
    have hdel : (parts.map (Views.salesReduce false)).map Views.SalesRow.delivered
        = parts.map (fun p => p.countP (fun v => v.status == some "delivered")) := by
      rw [List.map_map]
      refine List.map_congr_left fun p _ => ?_
      rw [Function.comp_apply, Views.salesReduce_false_eq]
    have hpen : (parts.map (Views.salesReduce false)).map Views.SalesRow.pending
        = parts.map (fun p => p.countP (fun v => v.status == some "pending")) := by
      rw [List.map_map]
      refine List.map_congr_left fun p _ => ?_
      rw [Function.comp_apply, Views.salesReduce_false_eq]
    have hcan : (parts.map (Views.salesReduce false)).map Views.SalesRow.cancelled
        = parts.map (fun p => p.countP (fun v => v.status == some "cancelled")) := by
      rw [List.map_map]
      refine List.map_congr_left fun p _ => ?_
      rw [Function.comp_apply, Views.salesReduce_false_eq]
    rw [htot, hcnt, hdel, hpen, hcan]
    simp only [Views.SalesRow.mk.injEq]
    refine ⟨?_, ?_, trivial, ?_, ?_, ?_⟩
    · rw [List.map_flatten, List.sum_flatten, List.map_map]
      rfl
    · rw [List.length_flatten]
    · rw [hcountP]
    · rw [hcountP]
    · rw [hcountP]
  have hperm : ∀ rows rows' : List Views.SalesRow, List.Perm rows rows' →
      Views.salesReduce false rows = Views.salesReduce false rows' := by
    intro rows rows' hp
    rw [Views.salesReduce_false_eq, Views.salesReduce_false_eq]
    simp only [Views.SalesRow.mk.injEq]
    exact ⟨(hp.map Views.SalesRow.total).sum_eq, hp.length_eq, trivial,
      hp.countP_eq _, hp.countP_eq _, hp.countP_eq _⟩
  have h4 : Views.salesReduce false
      [{ total := 100, count := 1, status := some "delivered" },
       { total := 50, count := 1, status := some "pending" }]
      = { total := 150, count := 2, status := none,
          delivered := 1, pending := 1, cancelled := 0 } := by
    rw [Views.salesReduce_false_eq]
    simp only [List.map_cons, List.map_nil, List.sum_cons, List.sum_nil,
      List.countP_cons, List.countP_nil, List.length_cons, List.length_nil,
      Views.SalesRow.mk.injEq]
    norm_num
    decide
  have h3 : Views.salesReduce true
      ([[({ total := 100, count := 1, status := some "delivered" } : Views.SalesRow)],
        [{ total := 50, count := 1, status := some "pending" }]].map
          (Views.salesReduce false))
      = { total := 150, count := 2, status := none,
          delivered := 1, pending := 1, cancelled := 0 } := by
    rw [hgen]
    simpa using h4
  exact ⟨hgen, hperm, h3, h4⟩

/-- Witness for `C3_sales_reduce_rereduce`: its permutation-invariance clause
applied to two concrete rows in swapped order. -/
theorem C3_sales_reduce_rereduce_witness :
    Views.salesReduce false
        [({ total := 100, count := 1, status := some "delivered" } : Views.SalesRow),
         { total := 50, count := 1, status := some "pending" }]
      = Views.salesReduce false
        [{ total := 50, count := 1, status := some "pending" },
         { total := 100, count := 1, status := some "delivered" }] :=
  C3_sales_reduce_rereduce.2.1 _ _ (List.Perm.swap _ _ _)

namespace Analytics

/-- A customer document as read by `get_customer_analytics`
(`customer.get("_id")`, `customer.get("name", "Unknown")`,
`customer.get("email", "")`). -/
structure CustomerDoc where
  id : Option String := none
  name : Option String := none
  email : Option String := none
deriving DecidableEq, Repr

/-- One value of the `customer_metrics` dictionary. -/
structure CustMetric where
  name : String
  email : String
  total_orders : Nat
  total_spent : ℚ
  last_order_date : Option String
deriving DecidableEq, Repr

/-- Python dict assignment `d[k] = v`: replace in place if the key exists,
append otherwise (dict keys are possibly-missing `_id` values). -/
def setMetric (m : List (Option String × CustMetric)) (k : Option String) (v : CustMetric) :
    List (Option String × CustMetric) :=
  match m with
  | [] => [(k, v)]
  | (k', v') :: t => if k' = k then (k, v) :: t else (k', v') :: setMetric t k v

/-- In-place update of an existing key (used by the order-aggregation loop;
a missing key leaves the dictionary unchanged, matching the
`if customer_id in customer_metrics` guard). -/
def updMetric (m : List (Option String × CustMetric)) (k : Option String)
    (f : CustMetric → CustMetric) : List (Option String × CustMetric) :=
  match m with
  | [] => []
  | (k', v') :: t => if k' = k then (k', f v') :: t else (k', v') :: updMetric t k f

/-- The per-order metric update of `get_customer_analytics`: bump
`total_orders`, add the stored total to `total_spent`, and replace
`last_order_date` when the order's `created_at` is truthy and either no date
is recorded yet, the recorded date is falsy (empty), or the new date compares
greater as a string. -/
def orderUpd (o : OrderDoc) (v : CustMetric) : CustMetric :=
  let v' := { v with total_orders := v.total_orders + 1,
                     total_spent := v.total_spent + o.total.getD 0 }
  match o.created_at with
  | none => v'
  | some s =>
    if s = "" then v'
    else
      match v'.last_order_date with
      | none => { v' with last_order_date := some s }
      | some l =>
        if l = "" then { v' with last_order_date := some s }
        else if l < s then { v' with last_order_date := some s }
        else v'

/-- The `data` dictionary of `get_customer_analytics`. -/
structure CustomerAnalytics where
  total_customers : Nat
  active_customers : Nat
  average_orders_per_customer : ℚ
  customer_details : List CustMetric
deriving DecidableEq, Repr

/-- `AnalyticsEngine.get_customer_analytics`, as a function of the customers
and orders query results; the customers query failure is checked first, then
the orders query failure, each returned unchanged. -/
def get_customer_analytics (customersRes : Result (List CustomerDoc))
    (ordersRes : Result (List OrderDoc)) : Result CustomerAnalytics :=
  match customersRes with
  | .err e => .err e
  | .ok customers =>
    match ordersRes with
    | .err e => .err e
    | .ok orders =>
      let init := customers.foldl
        (fun m c => setMetric m c.id
          { name := c.name.getD "Unknown", email := c.email.getD "",
            total_orders := 0, total_spent := 0, last_order_date := none }) []
      let metrics := orders.foldl
        (fun m o =>
          if (m.lookup o.customer_id).isSome then updMetric m o.customer_id (orderUpd o)
          else m) init
      let total_customers := customers.length
      let active_customers := (metrics.map Prod.snd).countP (fun v => 0 < v.total_orders)
      let avg : ℚ :=
        if 0 < total_customers then
          (((metrics.map Prod.snd).map (fun v => (v.total_orders : ℚ))).sum
            / (total_customers : ℚ))
        else 0
      .ok { total_customers := total_customers
            active_customers := active_customers
            average_orders_per_customer := round2 avg
            customer_details := metrics.map Prod.snd }

/-- A product document as read by `get_product_performance`
(`product.get("category", "Unknown")`, `product.get("price", 0)` guarded by
truthiness). -/
structure ProductDoc where
  category : Option String := none
  price : Option ℚ := none
deriving DecidableEq, Repr

/-- The `data` dictionary of `get_product_performance`. -/
structure ProductPerf where
  total_products : Nat
  categories : List (String × Nat)
  min_price : ℚ
  max_price : ℚ
  average_price : ℚ
deriving DecidableEq, Repr

/-- `prices = [p.get("price", 0) for p in products if p.get("price")]`:
a missing price is falsy, a zero price is falsy, anything else is truthy. -/
def pricesOf (products : List ProductDoc) : List ℚ :=
  (products.filter (fun p => !(p.price.getD 0 == 0))).map (fun p => p.price.getD 0)

/-- `AnalyticsEngine.get_product_performance`, as a function of the products
query result. -/
def get_product_performance (res : Result (List ProductDoc)) : Result ProductPerf :=
  match res with
  | .err e => .err e
  | .ok products =>
    let category_counts := products.foldl
      (fun m p => bump m (p.category.getD "Unknown")) []
    let prices := pricesOf products
    if prices.isEmpty then
      .ok { total_products := products.length, categories := category_counts,
            min_price := 0, max_price := 0, average_price := 0 }
    else
      .ok { total_products := products.length, categories := category_counts,
            min_price := (prices.min?).getD 0,
            max_price := (prices.max?).getD 0,
            average_price := round2 (prices.sum / (prices.length : ℚ)) }

/-- An analytics-event document (only its length matters to
`get_recent_activity`). -/
structure EventDoc where
  timestamp : Option String := none
deriving DecidableEq, Repr

/-- The `activity_summary` dictionary of `get_recent_activity`. -/
structure RecentActivity where
  period_days : Nat
  total_orders : Nat
  total_events : Nat
  orders : List OrderDoc
  events : List EventDoc
deriving DecidableEq, Repr

/-- `AnalyticsEngine.get_recent_activity`, as a function of the two query
results: an orders-query failure is returned unchanged, but a failure of the
events query is replaced by an empty event list
(`events_result.get("documents", []) if events_result.get("success") else []`);
the displayed event list is truncated to 20 entries. -/
def get_recent_activity (days : Nat) (ordersRes : Result (List OrderDoc))
    (eventsRes : Result (List EventDoc)) : Result RecentActivity :=
  match ordersRes with
  | .err e => .err e
  | .ok recent_orders =>
    let recent_events := match eventsRes with
      | .ok evs => evs
      | .err _ => []
    .ok { period_days := days
          total_orders := recent_orders.length
          total_events := recent_events.length
          orders := recent_orders
          events := recent_events.take 20 }

end Analytics

/-- **C4 (counterexample)**: the claim requires every prerequisite-fetch
failure to short-circuit, in particular the events query of
`get_recent_activity`; but when the orders query succeeds (empty list) and
the events query fails, the code returns a success result with an empty
events list instead of the failure. -/
theorem C4_counterexample :
    Analytics.get_recent_activity 7 (Result.ok [])
        (Result.err { error := "boom", message := "Failed to execute find query" })
      = Result.ok { period_days := 7, total_orders := 0, total_events := 0,
                    orders := [], events := [] }
  ∧ Analytics.get_recent_activity 7 (Result.ok [])
        (Result.err { error := "boom", message := "Failed to execute find query" })
      ≠ Result.err { error := "boom", message := "Failed to execute find query" } :=
  ⟨rfl, by decide⟩

/-- **C4 (amended)**: every aggregation of the Aggregation Engine returns a
prerequisite-fetch failure unchanged and performs no partial computation —
except that in `get_recent_activity` only the orders-query failure
short-circuits, while a failure of the events query is tolerated and replaced
by an empty event list in an otherwise successful result. -/
theorem C4_error_short_circuit :
    ∀ (e : ErrInfo) (limit days : Nat) (customers : List Analytics.CustomerDoc)
      (orders : List Analytics.OrderDoc)
      (ordersRes : Result (List Analytics.OrderDoc))
      (eventsRes : Result (List Analytics.EventDoc)),
      Analytics.get_sales_summary (Result.err e) = Result.err e
      ∧ Analytics.get_top_products (Result.err e) limit = Result.err e
      ∧ Analytics.get_customer_analytics (Result.err e) ordersRes = Result.err e
      ∧ Analytics.get_customer_analytics (Result.ok customers) (Result.err e) = Result.err e
      ∧ Analytics.get_product_performance (Result.err e) = Result.err e
      ∧ Analytics.get_recent_activity days (Result.err e) eventsRes = Result.err e
      ∧ Analytics.get_recent_activity days (Result.ok orders) (Result.err e)
          = Result.ok { period_days := days, total_orders := orders.length,
                        total_events := 0, orders := orders, events := [] } := by
  intro e limit days customers orders ordersRes eventsRes
  exact ⟨rfl, rfl, rfl, rfl, rfl, rfl, rfl⟩

namespace Analytics

/-- Spec side (from the claim's words): the prices of exactly those products
whose price field is truthy — a missing price and a zero price are excluded,
not treated as zero. -/
def spec_truthy_prices (products : List ProductDoc) : List ℚ :=
  products.filterMap (fun p => match p.price with
    | none => none
    | some q => if q = 0 then none else some q)

theorem pricesOf_eq_spec (products : List ProductDoc) :
    pricesOf products = spec_truthy_prices products := by
  induction products with
  | nil => rfl
  | cons p t ih =>
    cases hp : p.price with
    | none =>
      simp [pricesOf, spec_truthy_prices, List.filter_cons, List.filterMap_cons, hp] at ih ⊢
      exact ih
    | some q =>
      by_cases hq : q = 0
      · simp [pricesOf, spec_truthy_prices, List.filter_cons, List.filterMap_cons, hp, hq] at ih ⊢
        exact ih
      · simp [pricesOf, spec_truthy_prices, List.filter_cons, List.filterMap_cons, hp, hq] at ih ⊢
        exact ih

theorem pricesOf_append_falsy (products : List ProductDoc) (p : ProductDoc)
    (h : p.price = none ∨ p.price = some 0) :
    pricesOf (products ++ [p]) = pricesOf products := by
  have hfalse : (!(p.price.getD 0 == 0)) = false := by
    rcases h with h | h <;> simp [h]
  simp [pricesOf, List.filter_append, List.filter_cons, hfalse]

theorem get_product_performance_ok (products : List ProductDoc) :
    get_product_performance (Result.ok products)
      = Result.ok (if (pricesOf products).isEmpty then
          { total_products := products.length,
            categories := products.foldl (fun m p => bump m (p.category.getD "Unknown")) [],
            min_price := 0, max_price := 0, average_price := 0 }
        else
          { total_products := products.length,
            categories := products.foldl (fun m p => bump m (p.category.getD "Unknown")) [],
            min_price := (pricesOf products).min?.getD 0,
            max_price := (pricesOf products).max?.getD 0,
            average_price :=
              round2 ((pricesOf products).sum / ((pricesOf products).length : ℚ)) }) := by
  by_cases h : (pricesOf products).isEmpty <;>
    simp [get_product_performance, h]

end Analytics

/-- **C5**: product-performance price statistics are computed only over the
products whose price field is truthy (price 0 and missing price are excluded
from the statistic rather than counted as 0, so appending such a product
changes no statistic); when no product has a truthy price — including an
all-zero-price set and the empty set — min, max and average are all 0 and no
division fault occurs. -/
theorem C5_product_performance (products : List Analytics.ProductDoc) :
    ∃ d, Analytics.get_product_performance (Result.ok products) = Result.ok d
      ∧ Analytics.pricesOf products = Analytics.spec_truthy_prices products
      ∧ (Analytics.spec_truthy_prices products = [] →
          d.min_price = 0 ∧ d.max_price = 0 ∧ d.average_price = 0)
      ∧ (Analytics.spec_truthy_prices products ≠ [] →
          d.min_price = (Analytics.spec_truthy_prices products).min?.getD 0
          ∧ d.max_price = (Analytics.spec_truthy_prices products).max?.getD 0
          ∧ d.average_price
              = round2 ((Analytics.spec_truthy_prices products).sum
                  / ((Analytics.spec_truthy_prices products).length : ℚ)))
      ∧ (∀ p : Analytics.ProductDoc, p.price = none ∨ p.price = some 0 →
          ∃ d', Analytics.get_product_performance (Result.ok (products ++ [p]))
              = Result.ok d'
            ∧ d'.min_price = d.min_price ∧ d'.max_price = d.max_price
            ∧ d'.average_price = d.average_price
            ∧ d'.total_products = d.total_products + 1)
      ∧ d.total_products = products.length := by
  have hps := Analytics.pricesOf_eq_spec products
  refine ⟨_, Analytics.get_product_performance_ok products, hps, ?_, ?_, ?_, ?_⟩
  · intro h0
    have he : (Analytics.pricesOf products).isEmpty := by
      rw [hps, h0]; rfl
    simp [he]
  · intro hne
    have he : ¬ (Analytics.pricesOf products).isEmpty := by
      rw [hps]
      simpa [List.isEmpty_iff] using hne
    simp [he, hps, hne]
  · intro p hp
    have hsame := Analytics.pricesOf_append_falsy products p hp
    refine ⟨_, Analytics.get_product_performance_ok (products ++ [p]), ?_, ?_, ?_, ?_⟩ <;>
      by_cases he : (Analytics.pricesOf products).isEmpty <;>
        simp [hsame, he]
  · by_cases he : (Analytics.pricesOf products).isEmpty <;> simp [he]

/-- Witness for `C5_product_performance`: a product set containing only a
zero-price and a missing-price product yields min = max = average = 0. -/
theorem C5_product_performance_witness :
    ∃ d, Analytics.get_product_performance
        (Result.ok [{ price := some 0 }, ({} : Analytics.ProductDoc)]) = Result.ok d
      ∧ d.min_price = 0 ∧ d.max_price = 0 ∧ d.average_price = 0 := by
  obtain ⟨d, hok, -, hz, -, -, -⟩ :=
    C5_product_performance [{ price := some 0 }, {}]
  exact ⟨d, hok, hz (by decide)⟩

namespace Json

/-- A JSON value as held in a Python document dictionary.  Numbers are exact
decimals: `num m e` is the value `m / 10^e`, written with `e` fractional
digits (so `num 150 1` prints as `15.0` and `num 15 0` as `15`). -/
inductive JVal where
  | null
  | bool (b : Bool)
  | num (m : ℤ) (e : ℕ)
  | str (s : String)
  | arr (xs : List JVal)
  | obj (fs : List (String × JVal))
deriving Repr

/-- A document is a Python dict: an insertion-ordered association list. -/
def Doc := List (String × JVal)

/-- Whether a value is a nested structure (`isinstance(value, (dict, list))`). -/
def isNested : JVal → Bool
  | .arr _ => true
  | .obj _ => true
  | _ => false

end Json

namespace DB

open Json

/-- Python dict assignment `doc[k] = v`: replace the first entry with that key
in place, append at the end when absent. -/
def setKey (doc : Doc) (k : String) (v : JVal) : Doc :=
  match doc with
  | [] => [(k, v)]
  | (k', v') :: t => if k' = k then (k, v) :: t else (k', v') :: setKey t k v

/-- The timestamp stamping shared by `create` and `bulk_create`:
`created_at` is written only when absent, `updated_at` unconditionally. -/
def stamp (now : String) (doc : Doc) : Doc :=
  let doc1 := if (List.lookup "created_at" doc).isSome then doc
              else setKey doc "created_at" (JVal.str now)
  setKey doc1 "updated_at" (JVal.str now)

/-- The store's answer to a single-document POST: a transport/serialization
exception, or an HTTP response with status and the `id`/`rev` fields of its
JSON body. -/
inductive CreateResp where
  | exc (e : String)
  | http (status : Nat) (id rev : Option String)

/-- The success payload of `create`. -/
structure CreateOut where
  id : Option String
  rev : Option String
deriving DecidableEq, Repr

/-- `CouchDBClient.create`: stamps the caller's dictionary in place (the
first component of the result is the caller's document after the call,
whatever the response), then interprets the response. -/
def create (document : Doc) (now : String) (resp : CreateResp) :
    Doc × Result CreateOut :=
  let doc := stamp now document
  (doc,
    match resp with
    | .exc e => .err { error := e,
                       message := "Exception occurred during document creation" }
    | .http status id rev =>
      if status = 201 then .ok { id := id, rev := rev }
      else .err { error := "HTTP " ++ toString status,
                  message := "Failed to create document" })

/-- The store's answer to `_bulk_docs`: an exception, or an HTTP response
whose JSON body is one row per submitted document; a row is `some b` when it
has an `ok` field with (truthy) value `b`, `none` when it has no `ok` field
(a rejection row carrying `error`/`reason`). -/
inductive BulkResp where
  | exc (e : String)
  | http (status : Nat) (rows : List (Option Bool))

/-- The success payload of `bulk_create`. -/
structure BulkOut where
  results : List (Option Bool)
  total : Nat
  success_count : Nat
  error_count : Nat
deriving DecidableEq, Repr

/-- `CouchDBClient.bulk_create`: stamps every document of the caller's list in
place, submits the batch, and on a 201 response counts
`success_count = #{rows with a truthy ok}` and
`error_count = len(documents) - success_count`; any other status or an
exception is a total failure. -/
def bulk_create (documents : List Doc) (now : String) (resp : BulkResp) :
    (List Doc) × Result BulkOut :=
  let docs := documents.map (stamp now)
  (docs,
    match resp with
    | .exc e => .err { error := e,
                       message := "Exception occurred during bulk create operation" }
    | .http status rows =>
      if status = 201 then
        let success_count := rows.countP (fun r => r.getD false)
        .ok { results := rows, total := documents.length,
              success_count := success_count,
              error_count := documents.length - success_count }
      else .err { error := "HTTP " ++ toString status,
                  message := "Failed to execute bulk create operation" })

theorem setKey_lookup (doc : Doc) (k : String) (v : JVal) (p : String) :
    List.lookup p (setKey doc k v) = if p = k then some v else List.lookup p doc := by
  induction doc with
  | nil =>
    by_cases h : p = k
    · subst h; simp [setKey, List.lookup]
    · have hb : (p == k) = false := by simp [h]
      simp [setKey, List.lookup, h, hb]
  | cons e t ih =>
    obtain ⟨k', v'⟩ := e
    by_cases hk : k' = k
    · subst hk
      by_cases h : p = k'
      · subst h; simp [setKey, List.lookup]
      · have hb : (p == k') = false := by simp [h]
        simp [setKey, List.lookup, h, hb]
    · have hbk : setKey ((k', v') :: t) k v = (k', v') :: setKey t k v := by
        simp [setKey, hk]
      rw [hbk]
      by_cases h : p = k'
      · have hp : ¬ p = k := fun hh => hk ((h.symm.trans hh) ▸ rfl)
        subst h
        simp [List.lookup, hp]
      · have hb : (p == k') = false := by simp [h]
        simp [List.lookup, hb, ih]

theorem countP_ok_add_not (rows : List (Option Bool)) :
    rows.countP (fun r => r.getD false) + rows.countP (fun r => !(r.getD false))
      = rows.length := by
  induction rows with
  | nil => simp
  | cons r t ih =>
    cases hb : (r.getD false) <;>
      simp [List.countP_cons, hb] <;> omega

end DB

/-- **C7**: when the batch request itself succeeds (HTTP 201) and the store
rejects `k` of the `n` individual documents (rows without a truthy `ok`),
`bulk_create` returns a success-tagged result with
`success_count = n - k` and `error_count = k`; a non-201 response or a
transport exception — and only those — make the whole call a failure. -/
theorem C7_bulk_create (docs : List Json.Doc) (now : String) (rows : List (Option Bool))
    (hlen : rows.length = docs.length) :
    (∃ out, (DB.bulk_create docs now (DB.BulkResp.http 201 rows)).2 = Result.ok out
      ∧ out.success_count = docs.length - rows.countP (fun r => !(r.getD false))
      ∧ out.error_count = rows.countP (fun r => !(r.getD false))
      ∧ out.total = docs.length)
  ∧ (∀ status, status ≠ 201 → ∀ rows',
      Result.isOk (DB.bulk_create docs now (DB.BulkResp.http status rows')).2 = false)
  ∧ (∀ e, Result.isOk (DB.bulk_create docs now (DB.BulkResp.exc e)).2 = false) := by
  have hsum := DB.countP_ok_add_not rows
  have hle : rows.countP (fun r => r.getD false) ≤ rows.length := List.countP_le_length _
  refine ⟨⟨_, rfl, ?_, ?_, rfl⟩, ?_, ?_⟩
  · show rows.countP (fun r => r.getD false)
      = docs.length - rows.countP (fun r => !(r.getD false))
    omega
  · show docs.length - rows.countP (fun r => r.getD false)
      = rows.countP (fun r => !(r.getD false))
    omega
  · intro status hs rows'
    simp [DB.bulk_create, hs, Result.isOk]
  · intro e
    simp [DB.bulk_create, Result.isOk]

/-- Witness for `C7_bulk_create`: a bulk create of 10 documents where the
store rejects 3 yields `success_count = 7` and `error_count = 3`. -/
theorem C7_bulk_create_witness :
    ∃ out, (DB.bulk_create (List.replicate 10 ([] : Json.Doc)) "2024-01-01T00:00:00"
        (DB.BulkResp.http 201
          (List.replicate 7 (some true) ++ List.replicate 3 none))).2 = Result.ok out
      ∧ out.success_count = 7 ∧ out.error_count = 3 := by
  obtain ⟨out, hok, hs, he, -⟩ :=
    (C7_bulk_create (List.replicate 10 ([] : Json.Doc)) "2024-01-01T00:00:00"
      (List.replicate 7 (some true) ++ List.replicate 3 none) (by decide)).1
  refine ⟨out, hok, ?_, ?_⟩
  · rw [hs]; decide
  · rw [he]; decide

/-- **C10**: `create` and `bulk_create` mutate the caller-supplied document
dictionaries in place before submission: whatever the response — including a
failure — the caller's document afterwards is exactly the stamped document,
where `created_at` is written only when absent, `updated_at` is overwritten
unconditionally, and no other key's value changes. -/
theorem C10_timestamp_stamping :
    ∀ (now : String) (doc : Json.Doc) (resp : DB.CreateResp)
      (docs : List Json.Doc) (bresp : DB.BulkResp),
      (DB.create doc now resp).1 = DB.stamp now doc
      ∧ (DB.bulk_create docs now bresp).1 = docs.map (DB.stamp now)
      ∧ List.lookup "updated_at" (DB.stamp now doc) = some (Json.JVal.str now)
      ∧ (List.lookup "created_at" doc = none →
          List.lookup "created_at" (DB.stamp now doc) = some (Json.JVal.str now))
      ∧ (∀ v, List.lookup "created_at" doc = some v →
          List.lookup "created_at" (DB.stamp now doc) = some v)
      ∧ (∀ k, k ≠ "created_at" → k ≠ "updated_at" →
          List.lookup k (DB.stamp now doc) = List.lookup k doc) := by
  intro now doc resp docs bresp
  refine ⟨rfl, rfl, ?_, ?_, ?_, ?_⟩
  · simp [DB.stamp, DB.setKey_lookup]
  · intro h
    simp [DB.stamp, DB.setKey_lookup, h]
  · intro v h
    simp [DB.stamp, DB.setKey_lookup, h]
  · intro k h1 h2
    by_cases hc : (List.lookup "created_at" doc).isSome <;>
      simp [DB.stamp, DB.setKey_lookup, hc, h1, h2]

/-- Witness for `C10_timestamp_stamping`: a failing `create` call still leaves
the caller's document stamped, preserves a preexisting `created_at` and leaves
the other field untouched. -/
theorem C10_timestamp_stamping_witness :
    List.lookup "updated_at"
        (DB.create [("x", Json.JVal.num 1 0), ("created_at", Json.JVal.str "old")] "T"
          (DB.CreateResp.exc "boom")).1 = some (Json.JVal.str "T")
    ∧ List.lookup "created_at"
        (DB.create [("x", Json.JVal.num 1 0), ("created_at", Json.JVal.str "old")] "T"
          (DB.CreateResp.exc "boom")).1 = some (Json.JVal.str "old")
    ∧ List.lookup "x"
        (DB.create [("x", Json.JVal.num 1 0), ("created_at", Json.JVal.str "old")] "T"
          (DB.CreateResp.exc "boom")).1 = some (Json.JVal.num 1 0) := by
  obtain ⟨h1, -, h3, -, h5, h6⟩ :=
    C10_timestamp_stamping "T"
      [("x", Json.JVal.num 1 0), ("created_at", Json.JVal.str "old")]
      (DB.CreateResp.exc "boom") [] (DB.BulkResp.exc "")
  refine ⟨?_, ?_, ?_⟩
  · rw [h1]; exact h3
  · rw [h1]; exact h5 _ rfl
  · rw [h1]; exact h6 "x" (by decide) (by decide)

namespace Admin

/-- The `while True` pagination loop of `CouchDBAdmin.export_data`, as a
fuel-indexed function of the store (`skip ↦` result of
`client.find(selector, limit=batch_size, skip=skip)`): a fetch failure is
wrapped and returned, an empty batch stops with the accumulated documents,
a batch is appended and, when shorter than the batch size, also stops;
otherwise the loop continues at `skip + batch_size`.  `none` means the fuel
ran out before the loop terminated. -/
def exportLoop {α : Type} (store : Nat → Result (List α)) (B : Nat) :
    Nat → Nat → List α → Option (Result (List α))
  | 0, _, _ => none
  | fuel + 1, skip, acc =>
    match store skip with
    | .err e =>
      some (.err ⟨e.error, "Failed to fetch batch starting at " ++ toString skip⟩)
    | .ok documents =>
      if documents.isEmpty then some (.ok acc)
      else
        let acc' := acc ++ documents
        if documents.length < B then some (.ok acc')
        else exportLoop store B fuel (skip + B) acc'

theorem exportLoop_spec {α : Type} (store : Nat → Result (List α)) (B m : Nat)
    (batch : Nat → List α)
    (hok : ∀ i, i ≤ m → store (i * B) = Result.ok (batch i))
    (hfull : ∀ i, i < m → ¬((batch i).length < B) ∧ batch i ≠ [])
    (hshort : (batch m).length < B ∨ batch m = []) :
    ∀ fuel j acc, j ≤ m → m - j < fuel →
      exportLoop store B fuel (j * B) acc
        = some (Result.ok
            (acc ++ ((List.range (m + 1 - j)).map (fun i => batch (j + i))).flatten)) := by
  intro fuel
  induction fuel with
  | zero => intro j acc _ hf; omega
  | succ f ih =>
    intro j acc hj hf
    rw [exportLoop, hok j hj]
    by_cases hjm : j = m
    · subst hjm
      have hr : j + 1 - j = 1 := by omega
      rw [hr]
      rcases hshort with hlen | hemp
      · by_cases hemp : batch j = []
        · simp [hemp, List.range_succ, List.range_zero]
        · have hne : (batch j).isEmpty = false := by
            simpa [List.isEmpty_iff] using hemp
          simp [hne, hlen, List.range_succ, List.range_zero]
      · simp [hemp, List.range_succ, List.range_zero]
    · have hjlt : j < m := lt_of_le_of_ne hj hjm
      obtain ⟨hlen, hne⟩ := hfull j hjlt
      have hne' : (batch j).isEmpty = false := by
        simpa [List.isEmpty_iff] using hne
      simp only [hne', Bool.false_eq_true, if_false, hlen]
      have harith : j * B + B = (j + 1) * B := by ring
      rw [harith, ih (j + 1) (acc ++ batch j) (by omega) (by omega)]
      have hr : m + 1 - j = (m + 1 - (j + 1)) + 1 := by omega
      rw [hr, List.range_succ_eq_map, List.map_cons, List.map_map, List.flatten_cons,
        List.append_assoc]
      have hfun : (List.range (m + 1 - (j + 1))).map ((fun i => batch (j + i)) ∘ (· + 1))
          = (List.range (m + 1 - (j + 1))).map (fun i => batch (j + 1 + i)) := by
        refine List.map_congr_left fun i _ => ?_
        simp only [Function.comp_apply]
        congr 1
        omega
      rw [hfun]
      simp

end Admin

/-- **C8**: the export loop fetches pages strictly sequentially at skip
offsets `0, B, 2B, …` (the result depends only on the store's answers at
those offsets), appends every batch to the accumulated result in order, and
terminates exactly at the first batch that is shorter than the batch size or
empty; assuming every fetch succeeds and such a short batch exists at index
`m`, any fuel larger than `m` yields the same final result — the
concatenation of batches `0 … m`. -/
theorem C8_export_pagination {α : Type} (store : Nat → Result (List α)) (B m : Nat)
    (batch : Nat → List α)
    (hok : ∀ i, i ≤ m → store (i * B) = Result.ok (batch i))
    (hfull : ∀ i, i < m → ¬((batch i).length < B) ∧ batch i ≠ [])
    (hshort : (batch m).length < B ∨ batch m = []) :
    ∀ fuel, m < fuel →
      (Admin.exportLoop store B fuel 0 []
          = some (Result.ok (((List.range (m + 1)).map batch).flatten)))
      ∧ (∀ store' : Nat → Result (List α),
          (∀ i, i ≤ m → store' (i * B) = store (i * B)) →
          Admin.exportLoop store' B fuel 0 []
            = Admin.exportLoop store B fuel 0 []) := by
  intro fuel hfuel
  have h0 : (0 : Nat) = 0 * B := by ring
  have hmain := Admin.exportLoop_spec store B m batch hok hfull hshort fuel 0 []
    (by omega) (by omega)
  rw [h0]
  constructor
  · rw [hmain]
    have : (List.range (m + 1 - 0)).map (fun i => batch (0 + i))
        = (List.range (m + 1)).map batch := by
      refine List.map_congr_left fun i _ => by simp
    simp [this]
  · intro store' hagree
    have hok' : ∀ i, i ≤ m → store' (i * B) = Result.ok (batch i) := by
      intro i hi
      rw [hagree i hi, hok i hi]
    rw [hmain, Admin.exportLoop_spec store' B m batch hok' hfull hshort fuel 0 []
      (by omega) (by omega)]

/-- Witness for `C8_export_pagination`: batch size 2 over a store holding
three documents; the loop visits skips 0 and 2 and returns all three. -/
theorem C8_export_pagination_witness :
    Admin.exportLoop
        (fun skip => if skip = 0 then Result.ok [1, 2]
          else if skip = 2 then Result.ok [3] else Result.ok ([] : List Nat)) 2 5 0 []
      = some (Result.ok [1, 2, 3]) := by
  have h := (C8_export_pagination
      (fun skip => if skip = 0 then Result.ok [1, 2]
        else if skip = 2 then Result.ok [3] else Result.ok ([] : List Nat)) 2 1
      (fun i => if i = 0 then [1, 2] else if i = 1 then [3] else [])
      (by decide) (by decide) (by decide) 5 (by decide)).1
  rw [h]
  decide

namespace Admin

/-- `documents[i:i+batch_size]` slicing of the import loop
(`for i in range(0, len(documents), batch_size)`), with fuel bounded by the
list length; Python raises on a non-positive step, so `batch_size = 0` is
outside the modelled domain (the guard returns `[]`). -/
def chunksGo {α : Type} (B : Nat) : Nat → List α → List (List α)
  | 0, _ => []
  | _, [] => []
  | fuel + 1, l@(_ :: _) => l.take B :: chunksGo B fuel (l.drop B)

def chunks {α : Type} (B : Nat) (l : List α) : List (List α) :=
  if B = 0 then [] else chunksGo B l.length l

theorem chunksGo_flatten {α : Type} (B : Nat) (hB : 0 < B) :
    ∀ (fuel : Nat) (l : List α), l.length ≤ fuel → (chunksGo B fuel l).flatten = l := by
  intro fuel
  induction fuel with
  | zero =>
    intro l hl
    have : l = [] := List.eq_nil_of_length_eq_zero (by omega)
    simp [this, chunksGo]
  | succ f ih =>
    intro l hl
    cases l with
    | nil => simp [chunksGo]
    | cons x t =>
      have hl' : t.length + 1 ≤ f + 1 := by
        simpa using hl
      have hd : ((x :: t).drop B).length ≤ f := by
        rw [List.length_drop]
        simp only [List.length_cons]
        omega
      rw [chunksGo, List.flatten_cons, ih ((x :: t).drop B) hd]
      exact List.take_append_drop B (x :: t)

theorem chunks_flatten {α : Type} (B : Nat) (hB : 0 < B) (l : List α) :
    (chunks B l).flatten = l := by
  rw [chunks, if_neg (by omega)]
  exact chunksGo_flatten B hB l.length l le_rfl

/-- The final result dictionary of `CouchDBAdmin.import_data`. -/
structure ImportOut where
  success : Bool
  success_count : Nat
  error_count : Nat
  total_documents : Nat
deriving DecidableEq, Repr

/-- The batch loop of `CouchDBAdmin.import_data`, as a function of the parsed
documents and of the store's per-batch responses: each batch goes through
`bulk_create`; a success accumulates its per-document counts, a failure adds
the whole batch size to the error count; the overall `success` tag is
`total_success > 0`. -/
def import_batches (documents : List Json.Doc) (B : Nat) (now : String)
    (resp : Nat → DB.BulkResp) : ImportOut :=
  let counts := ((chunks B documents).enum).map (fun p =>
    match (DB.bulk_create p.2 now (resp p.1)).2 with
    | .ok out => (out.success_count, out.error_count)
    | .err _ => (0, p.2.length))
  let total_success := (counts.map Prod.fst).sum
  let total_errors := (counts.map Prod.snd).sum
  { success := decide (0 < total_success)
    success_count := total_success
    error_count := total_errors
    total_documents := documents.length }

theorem sum_fst_add_sum_snd (l : List (Nat × Nat)) :
    (l.map Prod.fst).sum + (l.map Prod.snd).sum
      = (l.map (fun p => p.1 + p.2)).sum := by
  induction l with
  | nil => rfl
  | cons p t ih => simp [List.map_cons, List.sum_cons]; omega

end Admin

namespace Admin

theorem enum_fst_lt {α : Type} {l : List α} {p : Nat × α} (h : p ∈ l.enum) :
    p.1 < l.length := by
  obtain ⟨i, x⟩ := p
  have := List.mk_mem_enum_iff_getElem?.mp h
  exact (List.getElem?_eq_some.mp this).1

theorem sum_enum_snd_length {α : Type} (C : List (List α)) :
    ((C.enum).map (fun p => p.2.length)).sum = C.flatten.length := by
  have h1 : (C.enum).map (fun p => p.2.length)
      = (C.enum.map Prod.snd).map List.length := by
    rw [List.map_map]
    rfl
  rw [h1, List.enum_map_snd, List.length_flatten]

end Admin

/-- **C9**: the overall import result is success-tagged iff at least one
document was accepted (`total_success > 0`): when every batch fails the run
reports failure with `error_count = len(documents)` even though every batch
was attempted, while one accepted row in any batch makes the run a success;
under length-consistent 201 responses the per-document counts satisfy
`success_count + error_count = len(documents)`, a whole-batch transport
failure contributing its full batch size to `error_count`. -/
theorem C9_import_success_tag (documents : List Json.Doc) (B : Nat) (now : String)
    (resp : Nat → DB.BulkResp) (hB : 0 < B) :
    ((Admin.import_batches documents B now resp).success = true
        ↔ 0 < (Admin.import_batches documents B now resp).success_count)
    ∧ (Admin.chunks B documents).flatten = documents
    ∧ ((∀ i, i < (Admin.chunks B documents).length →
          ∃ e, resp i = DB.BulkResp.exc e) →
        (Admin.import_batches documents B now resp).success = false
        ∧ (Admin.import_batches documents B now resp).success_count = 0
        ∧ (Admin.import_batches documents B now resp).error_count = documents.length)
    ∧ (∀ i rows, i < (Admin.chunks B documents).length →
          resp i = DB.BulkResp.http 201 rows →
          0 < rows.countP (fun r => r.getD false) →
          (Admin.import_batches documents B now resp).success = true)
    ∧ ((∀ i b rows, (Admin.chunks B documents)[i]? = some b →
          resp i = DB.BulkResp.http 201 rows → rows.length = b.length) →
        (Admin.import_batches documents B now resp).success_count
          + (Admin.import_batches documents B now resp).error_count
          = documents.length) := by
  have hflat := Admin.chunks_flatten B hB documents
  refine ⟨by simp [Admin.import_batches], hflat, ?_, ?_, ?_⟩
  · intro hall
    have hc : ((Admin.chunks B documents).enum).map (fun p =>
          match (DB.bulk_create p.2 now (resp p.1)).2 with
          | .ok out => (out.success_count, out.error_count)
          | .err _ => (0, p.2.length))
        = ((Admin.chunks B documents).enum).map (fun p => (0, p.2.length)) := by
      refine List.map_congr_left fun p hp => ?_
      obtain ⟨e, he⟩ := hall p.1 (Admin.enum_fst_lt hp)
      rw [he]
      rfl
    have hs : (Admin.import_batches documents B now resp).success_count = 0 := by
      simp only [Admin.import_batches, hc, List.map_map]
      refine List.sum_eq_zero ?_
      intro x hx
      obtain ⟨p, -, hp⟩ := List.mem_map.mp hx
      exact hp.symm.trans rfl
    have herr : (Admin.import_batches documents B now resp).error_count
        = documents.length := by
      simp only [Admin.import_batches, hc, List.map_map]
      have : ((Admin.chunks B documents).enum).map
            (Prod.snd ∘ fun p => ((0 : Nat), p.2.length))
          = ((Admin.chunks B documents).enum).map (fun p => p.2.length) := rfl
      rw [this, Admin.sum_enum_snd_length, hflat]
    have hiff : (Admin.import_batches documents B now resp).success
        = decide (0 < (Admin.import_batches documents B now resp).success_count) := by
      simp [Admin.import_batches]
    refine ⟨?_, hs, herr⟩
    rw [hiff, hs]
    decide
  · intro i rows hi hresp hcnt
    have hmem : (i, (Admin.chunks B documents)[i]) ∈ (Admin.chunks B documents).enum := by
      rw [List.mk_mem_enum_iff_getElem?]
      exact List.getElem?_eq_getElem hi
    have hval : (rows.countP (fun r => r.getD false),
          (Admin.chunks B documents)[i].length - rows.countP (fun r => r.getD false))
        ∈ ((Admin.chunks B documents).enum).map (fun p =>
            match (DB.bulk_create p.2 now (resp p.1)).2 with
            | .ok out => (out.success_count, out.error_count)
            | .err _ => (0, p.2.length)) := by
      refine List.mem_map.mpr ⟨(i, (Admin.chunks B documents)[i]), hmem, ?_⟩
      rw [hresp]
      rfl
    have hfst : rows.countP (fun r => r.getD false)
        ∈ (((Admin.chunks B documents).enum).map (fun p =>
            match (DB.bulk_create p.2 now (resp p.1)).2 with
            | .ok out => (out.success_count, out.error_count)
            | .err _ => (0, p.2.length))).map Prod.fst :=
      List.mem_map.mpr ⟨_, hval, rfl⟩
    have hle := List.single_le_sum (fun x _ => Nat.zero_le x) _ hfst
    simp only [Admin.import_batches, decide_eq_true_eq]
    omega
  · intro hwf
    simp only [Admin.import_batches]
    rw [Admin.sum_fst_add_sum_snd, List.map_map]
    have hc : ((Admin.chunks B documents).enum).map ((fun p => p.1 + p.2) ∘ fun p =>
          match (DB.bulk_create p.2 now (resp p.1)).2 with
          | .ok out => (out.success_count, out.error_count)
          | .err _ => (0, p.2.length))
        = ((Admin.chunks B documents).enum).map (fun p => p.2.length) := by
      refine List.map_congr_left fun p hp => ?_
      obtain ⟨i, b⟩ := p
      have hib : (Admin.chunks B documents)[i]? = some b :=
        List.mk_mem_enum_iff_getElem?.mp hp
      simp only [Function.comp_apply]
      cases hr : resp i with
      | exc e => simp [DB.bulk_create]
      | http status rows =>
        by_cases hst : status = 201
        · subst hst
          have hlen := hwf i b rows hib hr
          have hle : rows.countP (fun r => r.getD false) ≤ rows.length :=
            List.countP_le_length _
          simp [DB.bulk_create]
          omega
        · simp [DB.bulk_create, hst]
    rw [hc, Admin.sum_enum_snd_length, hflat]

/-- Witness for `C9_import_success_tag`: three documents imported in batches
of two; with the first batch failing in transport and one accepted row in
the second, the run is a success; with every batch failing, the run reports
failure with all three documents counted as errors. -/
theorem C9_import_success_tag_witness :
    (Admin.import_batches [[], [], []] 2 "T"
        (fun i => if i = 1 then DB.BulkResp.http 201 [some true]
                  else DB.BulkResp.exc "down")).success = true
    ∧ (Admin.import_batches [[], [], []] 2 "T"
        (fun _ => DB.BulkResp.exc "down")).success = false
    ∧ (Admin.import_batches [[], [], []] 2 "T"
        (fun _ => DB.BulkResp.exc "down")).error_count = 3 := by
  have hA := (C9_import_success_tag [[], [], []] 2 "T"
      (fun i => if i = 1 then DB.BulkResp.http 201 [some true]
                else DB.BulkResp.exc "down") (by decide)).2.2.2.1
      1 [some true] (by decide) rfl (by decide)
  have hB := (C9_import_success_tag [[], [], []] 2 "T"
      (fun _ => DB.BulkResp.exc "down") (by decide)).2.2.1
      (fun i _ => ⟨"down", rfl⟩)
  exact ⟨hA, hB.1, hB.2.2.trans rfl⟩

namespace Json

/-- The decimal digit characters. -/
def digitChar (d : Nat) : Char :=
  match d with
  | 0 => '0' | 1 => '1' | 2 => '2' | 3 => '3' | 4 => '4'
  | 5 => '5' | 6 => '6' | 7 => '7' | 8 => '8' | _ => '9'

/-- The decimal digits of a natural number, most significant first. -/
def natDigs (n : Nat) : List Char :=
  if h : n < 10 then [digitChar n]
  else natDigs (n / 10) ++ [digitChar (n % 10)]
termination_by n
decreasing_by exact Nat.div_lt_self (by omega) (by omega)

def digitVal (c : Char) : Nat := c.toNat - 48

/-- Value of a digit string (leading zeros allowed). -/
def digitsVal (ds : List Char) : Nat := ds.foldl (fun a c => a * 10 + digitVal c) 0

theorem digitVal_digitChar (d : Nat) (h : d < 10) : digitVal (digitChar d) = d := by
  interval_cases d <;> rfl

theorem isDigit_digitChar (d : Nat) (h : d < 10) : (digitChar d).isDigit = true := by
  interval_cases d <;> rfl

theorem digitsVal_append_digit (ds : List Char) (c : Char) :
    digitsVal (ds ++ [c]) = 10 * digitsVal ds + digitVal c := by
  simp [digitsVal, List.foldl_append]
  omega

theorem natDigs_ne_nil (n : Nat) : natDigs n ≠ [] := by
  rw [natDigs]
  by_cases h : n < 10 <;> simp [h]

theorem natDigs_all_digits (n : Nat) : ∀ c ∈ natDigs n, c.isDigit = true := by
  induction n using Nat.strong_induction_on with
  | _ n ih =>
    rw [natDigs]
    by_cases h : n < 10
    · simp only [h, dif_pos]
      intro c hc
      simp only [List.mem_singleton] at hc
      subst hc
      exact isDigit_digitChar n h
    · simp only [h, dif_neg, not_false_iff]
      intro c hc
      rcases List.mem_append.mp hc with hc | hc
      · exact ih (n / 10) (Nat.div_lt_self (by omega) (by omega)) c hc
      · simp only [List.mem_singleton] at hc
        subst hc
        exact isDigit_digitChar _ (Nat.mod_lt n (by omega))

theorem digitsVal_natDigs (n : Nat) : digitsVal (natDigs n) = n := by
  induction n using Nat.strong_induction_on with
  | _ n ih =>
    rw [natDigs]
    by_cases h : n < 10
    · simp only [h, dif_pos]
      simp [digitsVal, digitVal_digitChar n h]
    · simp only [h, dif_neg, not_false_iff]
      rw [digitsVal_append_digit, ih (n / 10) (Nat.div_lt_self (by omega) (by omega)),
        digitVal_digitChar _ (Nat.mod_lt n (by omega))]
      omega

theorem natDigs_length_le (e : Nat) (he : 1 ≤ e) :
    ∀ k, k < 10 ^ e → (natDigs k).length ≤ e := by
  induction e with
  | zero => omega
  | succ e ih =>
    intro k hk
    rw [natDigs]
    by_cases h : k < 10
    · simp only [h, dif_pos, List.length_singleton]
      omega
    · have he' : 1 ≤ e := by
        by_contra hc
        have : e = 0 := by omega
        subst this
        simp [pow_succ, pow_zero] at hk
        omega
      have hdiv : k / 10 < 10 ^ e := by
        rw [Nat.div_lt_iff_lt_mul (by omega)]
        calc k < 10 ^ (e + 1) := hk
        _ = 10 ^ e * 10 := by ring
      simp only [h, dif_neg, not_false_iff, List.length_append, List.length_cons,
        List.length_nil]
      have := ih he' (k / 10) hdiv
      omega

theorem digitsVal_pad (z : Nat) (ds : List Char) :
    digitsVal (List.replicate z '0' ++ ds) = digitsVal ds := by
  induction z with
  | zero => simp
  | succ z ih =>
    rw [List.replicate_succ, List.cons_append]
    show digitsVal ('0' :: (List.replicate z '0' ++ ds)) = digitsVal ds
    rw [digitsVal, List.foldl_cons]
    show List.foldl (fun a c => a * 10 + digitVal c) (0 * 10 + digitVal '0')
      (List.replicate z '0' ++ ds) = digitsVal ds
    have : 0 * 10 + digitVal '0' = 0 := by rfl
    rw [this]
    exact ih

end Json

namespace Json

/-- Lowercase hexadecimal digit, as produced by Python's `json.dumps`
`ensure_ascii` escaping. -/
def hexDigit (d : Nat) : Char :=
  match d with
  | 0 => '0' | 1 => '1' | 2 => '2' | 3 => '3' | 4 => '4'
  | 5 => '5' | 6 => '6' | 7 => '7' | 8 => '8' | 9 => '9'
  | 10 => 'a' | 11 => 'b' | 12 => 'c' | 13 => 'd' | 14 => 'e' | _ => 'f'

def hex4 (n : Nat) : List Char :=
  [hexDigit (n / 4096 % 16), hexDigit (n / 256 % 16), hexDigit (n / 16 % 16), hexDigit (n % 16)]

def hexVal (c : Char) : Option Nat :=
  if 48 ≤ c.toNat ∧ c.toNat ≤ 57 then some (c.toNat - 48)
  else if 97 ≤ c.toNat ∧ c.toNat ≤ 102 then some (c.toNat - 87)
  else if 65 ≤ c.toNat ∧ c.toNat ≤ 70 then some (c.toNat - 55)
  else none

theorem hexVal_hexDigit (d : Nat) (h : d < 16) : hexVal (hexDigit d) = some d := by
  interval_cases d <;> rfl

/-- `json.dumps` escaping of one character (`ensure_ascii=True`, the default
used by the CSV cell serialization): quote and backslash get two-character
escapes, the five control characters with short names get theirs, other ASCII
printable characters stand for themselves, all remaining BMP codepoints
become `\uXXXX`, and astral codepoints a surrogate pair. -/
def escChar (c : Char) : List Char :=
  if c = '"' then ['\\', '"']
  else if c = '\\' then ['\\', '\\']
  else if c.toNat = 8 then ['\\', 'b']
  else if c.toNat = 9 then ['\\', 't']
  else if c.toNat = 10 then ['\\', 'n']
  else if c.toNat = 12 then ['\\', 'f']
  else if c.toNat = 13 then ['\\', 'r']
  else if 32 ≤ c.toNat ∧ c.toNat ≤ 126 then [c]
  else if c.toNat < 65536 then '\\' :: 'u' :: hex4 c.toNat
  else '\\' :: 'u' :: hex4 (55296 + (c.toNat - 65536) / 1024)
    ++ '\\' :: 'u' :: hex4 (56320 + (c.toNat - 65536) % 1024)

/-- The serialized body of a JSON string (without the surrounding quotes). -/
def escape (s : List Char) : List Char := (s.map escChar).flatten

/-- Parse the body of a JSON string up to its closing quote, undoing the
escapes; fuel-indexed (one unit per produced character). -/
def parseStr : Nat → List Char → Option (List Char × List Char)
  | 0, _ => none
  | _ + 1, [] => none
  | fuel + 1, c :: r =>
    if c = '"' then some ([], r)
    else if c = '\\' then
      match r with
      | [] => none
      | e :: r1 =>
        if e = 'u' then
          match r1 with
          | c1 :: c2 :: c3 :: c4 :: r2 =>
            match hexVal c1, hexVal c2, hexVal c3, hexVal c4 with
            | some a, some b, some cc, some d =>
              let code := a * 4096 + b * 256 + cc * 16 + d
              if 55296 ≤ code ∧ code < 56320 then
                match r2 with
                | b1 :: b2 :: d1 :: d2 :: d3 :: d4 :: r3 =>
                  if b1 = '\\' ∧ b2 = 'u' then
                    match hexVal d1, hexVal d2, hexVal d3, hexVal d4 with
                    | some a', some b', some cc', some d' =>
                      let lo := a' * 4096 + b' * 256 + cc' * 16 + d'
                      if 56320 ≤ lo ∧ lo < 57344 then
                        (parseStr fuel r3).map (fun p =>
                          (Char.ofNat (65536 + (code - 55296) * 1024 + (lo - 56320))
                            :: p.1, p.2))
                      else none
                    | _, _, _, _ => none
                  else none
                | _ => none
              else if 56320 ≤ code ∧ code < 57344 then none
              else (parseStr fuel r2).map (fun p => (Char.ofNat code :: p.1, p.2))
            | _, _, _, _ => none
          | _ => none
        else if e = '"' then (parseStr fuel r1).map (fun p => ('"' :: p.1, p.2))
        else if e = '\\' then (parseStr fuel r1).map (fun p => ('\\' :: p.1, p.2))
        else if e = '/' then (parseStr fuel r1).map (fun p => ('/' :: p.1, p.2))
        else if e = 'b' then (parseStr fuel r1).map (fun p => (Char.ofNat 8 :: p.1, p.2))
        else if e = 't' then (parseStr fuel r1).map (fun p => (Char.ofNat 9 :: p.1, p.2))
        else if e = 'n' then (parseStr fuel r1).map (fun p => (Char.ofNat 10 :: p.1, p.2))
        else if e = 'f' then (parseStr fuel r1).map (fun p => (Char.ofNat 12 :: p.1, p.2))
        else if e = 'r' then (parseStr fuel r1).map (fun p => (Char.ofNat 13 :: p.1, p.2))
        else none
    else (parseStr fuel r).map (fun p => (c :: p.1, p.2))

end Json

namespace Json

theorem escape_cons (c : Char) (t : List Char) :
    escape (c :: t) = escChar c ++ escape t := rfl

theorem parseStr_u_step (f : Nat) (d1 d2 d3 d4 : Char) (a b c d : Nat)
    (h1 : hexVal d1 = some a) (h2 : hexVal d2 = some b)
    (h3 : hexVal d3 = some c) (h4 : hexVal d4 = some d)
    (code : Nat) (hcode : a * 4096 + b * 256 + c * 16 + d = code)
    (hout1 : ¬(55296 ≤ code ∧ code < 56320)) (hout2 : ¬(56320 ≤ code ∧ code < 57344))
    (r : List Char) :
    parseStr (f + 1) ('\\' :: 'u' :: d1 :: d2 :: d3 :: d4 :: r)
      = (parseStr f r).map (fun p => (Char.ofNat code :: p.1, p.2)) := by
  simp only [parseStr, h1, h2, h3, h4, if_true, if_false]
  rw [hcode, if_neg hout1, if_neg hout2, if_neg (by decide)]

theorem parseStr_u_pair_step (f : Nat) (d1 d2 d3 d4 e1 e2 e3 e4 : Char)
    (a b c d a' b' c' d' : Nat)
    (h1 : hexVal d1 = some a) (h2 : hexVal d2 = some b)
    (h3 : hexVal d3 = some c) (h4 : hexVal d4 = some d)
    (g1 : hexVal e1 = some a') (g2 : hexVal e2 = some b')
    (g3 : hexVal e3 = some c') (g4 : hexVal e4 = some d')
    (hi lo : Nat) (hhi : a * 4096 + b * 256 + c * 16 + d = hi)
    (hlo : a' * 4096 + b' * 256 + c' * 16 + d' = lo)
    (hhir : 55296 ≤ hi ∧ hi < 56320) (hlor : 56320 ≤ lo ∧ lo < 57344)
    (r : List Char) :
    parseStr (f + 1) ('\\' :: 'u' :: d1 :: d2 :: d3 :: d4 :: '\\' :: 'u' :: e1 :: e2 :: e3 :: e4 :: r)
      = (parseStr f r).map (fun p =>
          (Char.ofNat (65536 + (hi - 55296) * 1024 + (lo - 56320)) :: p.1, p.2)) := by
  simp only [parseStr, h1, h2, h3, h4, g1, g2, g3, g4, if_true, if_false, and_self]
  rw [hhi, hlo, if_pos hhir, if_pos hlor, if_neg (by decide)]

theorem parseStr_unicode (f n : Nat) (hn : n < 65536)
    (hout : ¬(55296 ≤ n ∧ n < 57344)) (r : List Char) :
    parseStr (f + 1) ('\\' :: 'u' :: (hex4 n ++ r))
      = (parseStr f r).map (fun p => (Char.ofNat n :: p.1, p.2)) := by
  have h := parseStr_u_step f (hexDigit (n / 4096 % 16)) (hexDigit (n / 256 % 16))
    (hexDigit (n / 16 % 16)) (hexDigit (n % 16))
    (n / 4096 % 16) (n / 256 % 16) (n / 16 % 16) (n % 16)
    (hexVal_hexDigit _ (by omega)) (hexVal_hexDigit _ (by omega))
    (hexVal_hexDigit _ (by omega)) (hexVal_hexDigit _ (by omega))
    n (by omega) (by omega) (by omega) r
  simpa [hex4] using h

theorem parseStr_surrogate (f n : Nat) (hn : 65536 ≤ n) (hn2 : n < 1114112) (r : List Char) :
    parseStr (f + 1)
        ('\\' :: 'u' :: (hex4 (55296 + (n - 65536) / 1024)
          ++ '\\' :: 'u' :: (hex4 (56320 + (n - 65536) % 1024) ++ r)))
      = (parseStr f r).map (fun p => (Char.ofNat n :: p.1, p.2)) := by
  have h := parseStr_u_pair_step f
    (hexDigit ((55296 + (n - 65536) / 1024) / 4096 % 16))
    (hexDigit ((55296 + (n - 65536) / 1024) / 256 % 16))
    (hexDigit ((55296 + (n - 65536) / 1024) / 16 % 16))
    (hexDigit ((55296 + (n - 65536) / 1024) % 16))
    (hexDigit ((56320 + (n - 65536) % 1024) / 4096 % 16))
    (hexDigit ((56320 + (n - 65536) % 1024) / 256 % 16))
    (hexDigit ((56320 + (n - 65536) % 1024) / 16 % 16))
    (hexDigit ((56320 + (n - 65536) % 1024) % 16))
    ((55296 + (n - 65536) / 1024) / 4096 % 16) ((55296 + (n - 65536) / 1024) / 256 % 16)
    ((55296 + (n - 65536) / 1024) / 16 % 16) ((55296 + (n - 65536) / 1024) % 16)
    ((56320 + (n - 65536) % 1024) / 4096 % 16) ((56320 + (n - 65536) % 1024) / 256 % 16)
    ((56320 + (n - 65536) % 1024) / 16 % 16) ((56320 + (n - 65536) % 1024) % 16)
    (hexVal_hexDigit _ (by omega)) (hexVal_hexDigit _ (by omega))
    (hexVal_hexDigit _ (by omega)) (hexVal_hexDigit _ (by omega))
    (hexVal_hexDigit _ (by omega)) (hexVal_hexDigit _ (by omega))
    (hexVal_hexDigit _ (by omega)) (hexVal_hexDigit _ (by omega))
    (55296 + (n - 65536) / 1024) (56320 + (n - 65536) % 1024)
    (by omega) (by omega) (by omega) (by omega) r
  have harith : 65536 + (55296 + (n - 65536) / 1024 - 55296) * 1024
      + (56320 + (n - 65536) % 1024 - 56320) = n := by omega
  rw [harith] at h
  simpa [hex4] using h

end Json

namespace Json

theorem parseStr_escape (s : List Char) : ∀ (fuel : Nat) (rest : List Char),
    s.length < fuel →
    parseStr fuel (escape s ++ '"' :: rest) = some (s, rest) := by
  induction s with
  | nil =>
    intro fuel rest hf
    match fuel, hf with
    | f + 1, _ =>
      show parseStr (f + 1) ('"' :: rest) = some ([], rest)
      simp [parseStr]
  | cons c t ih =>
    intro fuel rest hf
    match fuel, hf with
    | f + 1, hf =>
      have iht : parseStr f (escape t ++ '"' :: rest) = some (t, rest) :=
        ih f rest (by simp at hf; omega)
      rw [escape_cons, List.append_assoc]
      by_cases h1 : c = '"'
      · subst h1
        rw [show escChar '"' = ['\\', '"'] from rfl]
        simp [parseStr, iht]
      · by_cases h2 : c = '\\'
        · subst h2
          rw [show escChar '\\' = ['\\', '\\'] from rfl]
          simp [parseStr, iht]
        · by_cases h3 : c.toNat = 8
          · have hc : c = Char.ofNat 8 := by rw [← Char.ofNat_toNat c, h3]
            subst hc
            rw [show escChar (Char.ofNat 8) = ['\\', 'b'] from rfl]
            simp [parseStr, iht]
          · by_cases h4 : c.toNat = 9
            · have hc : c = Char.ofNat 9 := by rw [← Char.ofNat_toNat c, h4]
              subst hc
              rw [show escChar (Char.ofNat 9) = ['\\', 't'] from rfl]
              simp [parseStr, iht]
            · by_cases h5 : c.toNat = 10
              · have hc : c = Char.ofNat 10 := by rw [← Char.ofNat_toNat c, h5]
                subst hc
                rw [show escChar (Char.ofNat 10) = ['\\', 'n'] from rfl]
                simp [parseStr, iht]
              · by_cases h6 : c.toNat = 12
                · have hc : c = Char.ofNat 12 := by rw [← Char.ofNat_toNat c, h6]
                  subst hc
                  rw [show escChar (Char.ofNat 12) = ['\\', 'f'] from rfl]
                  simp [parseStr, iht]
                · by_cases h7 : c.toNat = 13
                  · have hc : c = Char.ofNat 13 := by rw [← Char.ofNat_toNat c, h7]
                    subst hc
                    rw [show escChar (Char.ofNat 13) = ['\\', 'r'] from rfl]
                    simp [parseStr, iht]
                  · by_cases h8 : 32 ≤ c.toNat ∧ c.toNat ≤ 126
                    · have he : escChar c = [c] := by
                        simp only [escChar]
                        rw [if_neg h1, if_neg h2, if_neg h3, if_neg h4, if_neg h5,
                          if_neg h6, if_neg h7, if_pos h8]
                      rw [he, List.singleton_append]
                      simp only [parseStr]
                      rw [if_neg h1, if_neg h2, iht]
                      rfl
                    · have hval : c.toNat < 55296 ∨ (57343 < c.toNat ∧ c.toNat < 1114112) :=
                        c.valid
                      by_cases h9 : c.toNat < 65536
                      · have he : escChar c = '\\' :: 'u' :: hex4 c.toNat := by
                          simp only [escChar]
                          rw [if_neg h1, if_neg h2, if_neg h3, if_neg h4, if_neg h5,
                            if_neg h6, if_neg h7, if_neg h8, if_pos h9]
                        rw [he]
                        simp only [List.cons_append]
                        rw [parseStr_unicode f c.toNat h9 (by omega) _, iht]
                        simp
                      · have he : escChar c = '\\' :: 'u' :: hex4 (55296 + (c.toNat - 65536) / 1024)
                            ++ '\\' :: 'u' :: hex4 (56320 + (c.toNat - 65536) % 1024) := by
                          simp only [escChar]
                          rw [if_neg h1, if_neg h2, if_neg h3, if_neg h4, if_neg h5,
                            if_neg h6, if_neg h7, if_neg h8, if_neg h9]
                        rw [he]
                        simp only [List.cons_append, List.append_assoc]
                        rw [parseStr_surrogate f c.toNat (by omega) (by omega) _, iht]
                        simp

end Json

namespace Json

/-- The decimal rendering of `num m e` (`m / 10^e` with `e` fractional
digits), as Python prints ints (`e = 0`) and floats with a finite decimal
expansion. -/
def numDumps (m : ℤ) (e : ℕ) : List Char :=
  (if m < 0 then ['-'] else [])
    ++ (if e = 0 then natDigs m.natAbs
        else natDigs (m.natAbs / 10 ^ e) ++ '.'
          :: (List.replicate (e - (natDigs (m.natAbs % 10 ^ e)).length) '0'
              ++ natDigs (m.natAbs % 10 ^ e)))

/-- Parse an unsigned decimal literal (digits, optionally `.` digits),
returning the scaled mantissa, the number of fractional digits, and the rest
of the input. -/
def parseNum (cs : List Char) : Option ((Nat × Nat) × List Char) :=
  let ds := cs.takeWhile Char.isDigit
  let r := cs.dropWhile Char.isDigit
  if ds.isEmpty then none
  else
    match r with
    | [] => some ((digitsVal ds, 0), r)
    | c2 :: r2 =>
      if c2 = '.' then
        let fs := r2.takeWhile Char.isDigit
        let r3 := r2.dropWhile Char.isDigit
        if fs.isEmpty then none
        else some ((digitsVal ds * 10 ^ fs.length + digitsVal fs, fs.length), r3)
      else some ((digitsVal ds, 0), r)

/-- A continuation in front of which a serialized value can be re-parsed
unambiguously: it does not begin with a digit or a decimal point. -/
def goodRest : List Char → Prop
  | [] => True
  | c :: _ => c.isDigit = false ∧ c ≠ '.'

theorem takeWhile_digits_append (l₁ : List Char) : ∀ (l₂ : List Char),
    (∀ a ∈ l₁, a.isDigit = true) →
    (∀ c r', l₂ = c :: r' → c.isDigit = false) →
    (l₁ ++ l₂).takeWhile Char.isDigit = l₁
      ∧ (l₁ ++ l₂).dropWhile Char.isDigit = l₂ := by
  induction l₁ with
  | nil =>
    intro l₂ h1 h2
    cases l₂ with
    | nil => exact ⟨rfl, rfl⟩
    | cons c r =>
      have hc := h2 c r rfl
      simp [List.takeWhile_cons, List.dropWhile_cons, hc]
  | cons a l ih =>
    intro l₂ h1 h2
    have ha : a.isDigit = true := h1 a (by simp)
    have hrec := ih l₂ (fun x hx => h1 x (by simp [hx])) h2
    simp [List.takeWhile_cons, List.dropWhile_cons, ha, hrec.1, hrec.2]

theorem natDigs_isEmpty (n : Nat) : (natDigs n).isEmpty = false := by
  cases hnd : natDigs n with
  | nil => exact absurd hnd (natDigs_ne_nil n)
  | cons c r => rfl

theorem parseNum_dumps (n e : Nat) (rest : List Char) (hrest : goodRest rest) :
    parseNum ((if e = 0 then natDigs n
        else natDigs (n / 10 ^ e) ++ '.'
          :: (List.replicate (e - (natDigs (n % 10 ^ e)).length) '0'
              ++ natDigs (n % 10 ^ e))) ++ rest)
      = some ((n, e), rest) := by
  have hrest' : ∀ c r', rest = c :: r' → c.isDigit = false := by
    intro c r' h
    rw [h] at hrest
    exact hrest.1
  by_cases he : e = 0
  · subst he
    rw [if_pos rfl]
    obtain ⟨ht, hd⟩ := takeWhile_digits_append (natDigs n) rest (natDigs_all_digits n) hrest'
    cases hr : rest with
    | nil =>
      subst hr
      simp only [parseNum, ht, hd, natDigs_isEmpty, Bool.false_eq_true, if_false]
      simp [digitsVal_natDigs]
    | cons c r =>
      subst hr
      have hc : ¬ c = '.' := hrest.2
      simp only [parseNum, ht, hd, natDigs_isEmpty, Bool.false_eq_true, if_false,
        if_neg hc]
      simp [digitsVal_natDigs]
  · rw [if_neg he]
    have hL : (natDigs (n % 10 ^ e)).length ≤ e :=
      natDigs_length_le e (by omega) _ (Nat.mod_lt _ (by positivity))
    have hpadlen : (List.replicate (e - (natDigs (n % 10 ^ e)).length) '0'
        ++ natDigs (n % 10 ^ e)).length = e := by
      simp only [List.length_append, List.length_replicate]
      omega
    have hpaddig : ∀ a ∈ List.replicate (e - (natDigs (n % 10 ^ e)).length) '0'
        ++ natDigs (n % 10 ^ e), a.isDigit = true := by
      intro a ha
      rcases List.mem_append.mp ha with ha | ha
      · rw [List.eq_of_mem_replicate ha]
        rfl
      · exact natDigs_all_digits _ a ha
    have hshape : (natDigs (n / 10 ^ e) ++ '.'
          :: (List.replicate (e - (natDigs (n % 10 ^ e)).length) '0'
              ++ natDigs (n % 10 ^ e))) ++ rest
        = natDigs (n / 10 ^ e) ++ '.'
          :: ((List.replicate (e - (natDigs (n % 10 ^ e)).length) '0'
              ++ natDigs (n % 10 ^ e)) ++ rest) := by
      simp [List.append_assoc]
    rw [hshape]
    obtain ⟨ht1, hd1⟩ := takeWhile_digits_append (natDigs (n / 10 ^ e))
      ('.' :: ((List.replicate (e - (natDigs (n % 10 ^ e)).length) '0'
          ++ natDigs (n % 10 ^ e)) ++ rest))
      (natDigs_all_digits _) (by intro c r' h; cases h; rfl)
    obtain ⟨ht2, hd2⟩ := takeWhile_digits_append
      (List.replicate (e - (natDigs (n % 10 ^ e)).length) '0' ++ natDigs (n % 10 ^ e))
      rest hpaddig hrest'
    have hfs : ¬((List.replicate (e - (natDigs (n % 10 ^ e)).length) '0'
        ++ natDigs (n % 10 ^ e)).isEmpty = true) := by
      intro hie
      rw [List.isEmpty_iff] at hie
      rw [hie] at hpadlen
      simp at hpadlen
      omega
    simp only [parseNum, ht1, hd1, natDigs_isEmpty, Bool.false_eq_true, if_false,
      if_pos rfl, ht2, hd2, if_neg hfs]
    rw [hpadlen, digitsVal_pad, digitsVal_natDigs, digitsVal_natDigs]
    have hdm : n / 10 ^ e * 10 ^ e + n % 10 ^ e = n := by
      rw [Nat.mul_comm]
      exact Nat.div_add_mod n (10 ^ e)
    rw [hdm]
    simp

end Json

namespace Json

mutual
/-- `json.dumps` with default separators (`', '` and `': '`) and
`ensure_ascii=True`, as the export uses for nested values. -/
def dumpsC : JVal → List Char
  | .null => ['n', 'u', 'l', 'l']
  | .bool b => if b then ['t', 'r', 'u', 'e'] else ['f', 'a', 'l', 's', 'e']
  | .num m e => numDumps m e
  | .str s => '"' :: (escape s.data ++ ['"'])
  | .arr xs => '[' :: (dumpsList xs ++ [']'])
  | .obj fs => '{' :: (dumpsFields fs ++ ['}'])

def dumpsList : List JVal → List Char
  | [] => []
  | [x] => dumpsC x
  | x :: y :: t => dumpsC x ++ ',' :: ' ' :: dumpsList (y :: t)

def dumpsFields : List (String × JVal) → List Char
  | [] => []
  | [(k, v)] => '"' :: (escape k.data ++ '"' :: ':' :: ' ' :: dumpsC v)
  | (k, v) :: f :: t =>
      ('"' :: (escape k.data ++ '"' :: ':' :: ' ' :: dumpsC v))
        ++ ',' :: ' ' :: dumpsFields (f :: t)
end

mutual
/-- Node count of a value, a fuel bound for the parser. -/
def sizeJ : JVal → Nat
  | .arr xs => 1 + sizeL xs
  | .obj fs => 1 + sizeF fs
  | _ => 1

def sizeL : List JVal → Nat
  | [] => 0
  | x :: t => 1 + sizeJ x + sizeL t

def sizeF : List (String × JVal) → Nat
  | [] => 0
  | (_, v) :: t => 1 + sizeJ v + sizeF t
end

/-- The whitespace characters `json.loads` skips. -/
def wsChar (c : Char) : Bool :=
  c = ' ' || c = '\t' || c = '\n' || c = '\r'

def skipWs (cs : List Char) : List Char := cs.dropWhile wsChar

mutual
/-- The recursive descent of `json.loads`, fuel-indexed: values, the items of
an array after `[`, and the fields of an object after `{`. -/
def parseVal : Nat → List Char → Option (JVal × List Char)
  | 0, _ => none
  | fuel + 1, cs =>
    match skipWs cs with
    | [] => none
    | c :: r =>
      if c = '"' then
        match parseStr (r.length + 1) r with
        | some (s, rest) => some (.str (String.mk s), rest)
        | none => none
      else if c = '{' then
        match skipWs r with
        | [] => none
        | d :: r2 =>
          if d = '}' then some (.obj [], r2)
          else
            match parseFields fuel r with
            | some (fs, rest) => some (.obj fs, rest)
            | none => none
      else if c = '[' then
        match skipWs r with
        | [] => none
        | d :: r2 =>
          if d = ']' then some (.arr [], r2)
          else
            match parseItems fuel r with
            | some (xs, rest) => some (.arr xs, rest)
            | none => none
      else if c = 't' then
        match r with
        | 'r' :: 'u' :: 'e' :: r2 => some (.bool true, r2)
        | _ => none
      else if c = 'f' then
        match r with
        | 'a' :: 'l' :: 's' :: 'e' :: r2 => some (.bool false, r2)
        | _ => none
      else if c = 'n' then
        match r with
        | 'u' :: 'l' :: 'l' :: r2 => some (.null, r2)
        | _ => none
      else if c = '-' then
        match parseNum r with
        | some ((n, e), rest) => some (.num (-(n : ℤ)) e, rest)
        | none => none
      else if c.isDigit then
        match parseNum (c :: r) with
        | some ((n, e), rest) => some (.num (n : ℤ) e, rest)
        | none => none
      else none

def parseItems : Nat → List Char → Option (List JVal × List Char)
  | 0, _ => none
  | fuel + 1, cs =>
    match parseVal fuel cs with
    | none => none
    | some (v, rest) =>
      match skipWs rest with
      | [] => none
      | d :: r2 =>
        if d = ']' then some ([v], r2)
        else if d = ',' then
          match parseItems fuel r2 with
          | some (vs, r3) => some (v :: vs, r3)
          | none => none
        else none

def parseFields : Nat → List Char → Option (List (String × JVal) × List Char)
  | 0, _ => none
  | fuel + 1, cs =>
    match skipWs cs with
    | [] => none
    | c :: r =>
      if c = '"' then
        match parseStr (r.length + 1) r with
        | some (k, rest) =>
          match skipWs rest with
          | [] => none
          | d :: r2 =>
            if d = ':' then
              match parseVal fuel r2 with
              | none => none
              | some (v, r3) =>
                match skipWs r3 with
                | [] => none
                | e2 :: r4 =>
                  if e2 = '}' then some ([(String.mk k, v)], r4)
                  else if e2 = ',' then
                    match parseFields fuel r4 with
                    | some (fs, r5) => some ((String.mk k, v) :: fs, r5)
                    | none => none
                  else none
            else none
        | none => none
      else none
end

theorem digit_toNat (c : Char) (h : c.isDigit = true) :
    48 ≤ c.toNat ∧ c.toNat ≤ 57 := by
  unfold Char.isDigit at h
  simp only [Bool.and_eq_true, decide_eq_true_eq] at h
  exact h

theorem digit_ne (c a : Char) (h : c.isDigit = true)
    (ha : a.toNat < 48 ∨ 57 < a.toNat) : c ≠ a := by
  intro heq
  rw [heq] at h
  obtain ⟨h1, h2⟩ := digit_toNat a h
  omega

theorem digit_wsChar (c : Char) (h : c.isDigit = true) : wsChar c = false := by
  have h1 := digit_ne c ' ' h (by decide)
  have h2 := digit_ne c '\t' h (by decide)
  have h3 := digit_ne c '\n' h (by decide)
  have h4 := digit_ne c '\r' h (by decide)
  simp [wsChar, h1, h2, h3, h4]

theorem mkData (s : String) : String.mk s.data = s := by
  cases s
  rfl

theorem sizeJ_pos (v : JVal) : 1 ≤ sizeJ v := by
  cases v <;> simp [sizeJ]

theorem skipWs_cons_false (c : Char) (l : List Char) (h : wsChar c = false) :
    skipWs (c :: l) = c :: l := by
  simp [skipWs, List.dropWhile_cons, h]

theorem skipWs_space (l : List Char) : skipWs (' ' :: l) = skipWs l := by
  simp [skipWs, List.dropWhile_cons, wsChar]

theorem parseVal_space (f : Nat) (l : List Char) :
    parseVal f (' ' :: l) = parseVal f l := by
  cases f with
  | zero => rfl
  | succ f => simp only [parseVal, skipWs_space]

theorem parseItems_space (f : Nat) (l : List Char) :
    parseItems f (' ' :: l) = parseItems f l := by
  cases f with
  | zero => rfl
  | succ f => simp only [parseItems, parseVal_space]

theorem parseFields_space (f : Nat) (l : List Char) :
    parseFields f (' ' :: l) = parseFields f l := by
  cases f with
  | zero => rfl
  | succ f => simp only [parseFields, skipWs_space]

theorem escChar_len (c : Char) : 1 ≤ (escChar c).length := by
  unfold escChar
  repeat' split
  all_goals simp [hex4]

theorem escape_length (s : List Char) : s.length ≤ (escape s).length := by
  induction s with
  | nil => simp [escape]
  | cons c t ih =>
    rw [escape_cons]
    simp only [List.length_append, List.length_cons]
    have := escChar_len c
    omega

theorem numBody_cons (n e : Nat) : ∃ c t,
    (if e = 0 then natDigs n
     else natDigs (n / 10 ^ e) ++ '.'
       :: (List.replicate (e - (natDigs (n % 10 ^ e)).length) '0'
           ++ natDigs (n % 10 ^ e))) = c :: t ∧ c.isDigit = true := by
  by_cases he : e = 0
  · rw [if_pos he]
    cases hnd : natDigs n with
    | nil => exact absurd hnd (natDigs_ne_nil n)
    | cons c t => exact ⟨c, t, rfl, natDigs_all_digits n c (by rw [hnd]; simp)⟩
  · rw [if_neg he]
    cases hnd : natDigs (n / 10 ^ e) with
    | nil => exact absurd hnd (natDigs_ne_nil _)
    | cons c t =>
      exact ⟨c, t ++ '.' :: (List.replicate (e - (natDigs (n % 10 ^ e)).length) '0'
          ++ natDigs (n % 10 ^ e)), by simp, natDigs_all_digits _ c (by rw [hnd]; simp)⟩

theorem dumpsC_cons (v : JVal) : ∃ c t, dumpsC v = c :: t
    ∧ wsChar c = false ∧ c ≠ ']' ∧ c ≠ '}' := by
  cases v with
  | null => exact ⟨'n', ['u', 'l', 'l'], by simp [dumpsC], by decide, by decide, by decide⟩
  | bool b =>
    cases b with
    | true => exact ⟨'t', ['r', 'u', 'e'], by simp [dumpsC], by decide, by decide, by decide⟩
    | false => exact ⟨'f', ['a', 'l', 's', 'e'], by simp [dumpsC], by decide, by decide, by decide⟩
  | num m e =>
    obtain ⟨c, t, hb, hc⟩ := numBody_cons m.natAbs e
    by_cases hm : m < 0
    · refine ⟨'-', (if e = 0 then natDigs m.natAbs
        else natDigs (m.natAbs / 10 ^ e) ++ '.'
          :: (List.replicate (e - (natDigs (m.natAbs % 10 ^ e)).length) '0'
              ++ natDigs (m.natAbs % 10 ^ e))), ?_, by decide, by decide, by decide⟩
      simp [dumpsC, numDumps, hm]
    · refine ⟨c, t, ?_, digit_wsChar c hc, digit_ne c ']' hc (by decide),
        digit_ne c '}' hc (by decide)⟩
      simp [dumpsC, numDumps, hm, hb]
  | str s => exact ⟨'"', escape s.data ++ ['"'], by simp [dumpsC], by decide, by decide, by decide⟩
  | arr xs => exact ⟨'[', dumpsList xs ++ [']'], by simp [dumpsC], by decide, by decide, by decide⟩
  | obj fs => exact ⟨'{', dumpsFields fs ++ ['}'], by simp [dumpsC], by decide, by decide, by decide⟩

theorem dumpsList_cons (x : JVal) (t : List JVal) :
    ∃ l, dumpsList (x :: t) = dumpsC x ++ l := by
  cases t with
  | nil => exact ⟨[], by simp [dumpsList]⟩
  | cons y t2 => exact ⟨',' :: ' ' :: dumpsList (y :: t2), by simp [dumpsList]⟩

theorem dumpsFields_head (k : String) (v : JVal) (t : List (String × JVal)) :
    ∃ l, dumpsFields ((k, v) :: t) = '"' :: l := by
  cases t with
  | nil => exact ⟨escape k.data ++ '"' :: ':' :: ' ' :: dumpsC v, by simp [dumpsFields]⟩
  | cons q t2 =>
    exact ⟨(escape k.data ++ '"' :: ':' :: ' ' :: dumpsC v)
      ++ ',' :: ' ' :: dumpsFields (q :: t2), by simp [dumpsFields]⟩

theorem goodRest_cons (c : Char) (r : List Char) (h1 : c.isDigit = false)
    (h2 : c ≠ '.') : goodRest (c :: r) := ⟨h1, h2⟩

end Json

namespace Json

theorem parse_dumps : ∀ fuel : Nat,
    (∀ (v : JVal) (rest : List Char), sizeJ v < fuel → goodRest rest →
      parseVal fuel (dumpsC v ++ rest) = some (v, rest))
    ∧ (∀ (xs : List JVal) (rest : List Char), sizeL xs < fuel → xs ≠ [] →
      parseItems fuel (dumpsList xs ++ ']' :: rest) = some (xs, rest))
    ∧ (∀ (fs : List (String × JVal)) (rest : List Char), sizeF fs < fuel → fs ≠ [] →
      parseFields fuel (dumpsFields fs ++ '}' :: rest) = some (fs, rest)) := by
  intro fuel
  induction fuel with
  | zero =>
    refine ⟨fun v rest h _ => absurd h (by omega),
      fun xs rest h _ => absurd h (by omega),
      fun fs rest h _ => absurd h (by omega)⟩
  | succ fuel ih =>
    obtain ⟨ih1, ih2, ih3⟩ := ih
    refine ⟨?_, ?_, ?_⟩
    · intro v rest hs hrest
      cases v with
      | null =>
        rw [show dumpsC .null = ['n', 'u', 'l', 'l'] from by simp [dumpsC]]
        simp [parseVal, skipWs, wsChar]
      | bool b =>
        cases b with
        | true =>
          rw [show dumpsC (.bool true) = ['t', 'r', 'u', 'e'] from by simp [dumpsC]]
          simp [parseVal, skipWs, wsChar]
        | false =>
          rw [show dumpsC (.bool false) = ['f', 'a', 'l', 's', 'e'] from by simp [dumpsC]]
          simp [parseVal, skipWs, wsChar]
      | str s =>
        rw [show dumpsC (.str s) = '"' :: (escape s.data ++ ['"']) from by simp [dumpsC]]
        rw [show ('"' :: (escape s.data ++ ['"'])) ++ rest
          = '"' :: (escape s.data ++ '"' :: rest) from by simp]
        simp only [parseVal]
        rw [skipWs_cons_false _ _ (by decide)]
        have hps := parseStr_escape s.data ((escape s.data ++ '"' :: rest).length + 1) rest
          (by have := escape_length s.data
              simp only [List.length_append, List.length_cons]
              omega)
        simp only [List.length_append, List.length_cons] at hps
        simp [hps, mkData]
      | num m e =>
        obtain ⟨c, t, hb, hc⟩ := numBody_cons m.natAbs e
        have hpn := parseNum_dumps m.natAbs e rest hrest
        rw [hb] at hpn
        rw [show ((c :: t) ++ rest) = c :: (t ++ rest) from by simp] at hpn
        by_cases hm : m < 0
        · rw [show dumpsC (.num m e) = '-' :: (c :: t) from by
            simp [dumpsC, numDumps, hm, hb]]
          simp only [List.cons_append, parseVal]
          rw [skipWs_cons_false _ _ (by decide)]
          simp [hpn, abs_of_neg hm]
        · rw [show dumpsC (.num m e) = c :: t from by
            simp [dumpsC, numDumps, hm, hb]]
          simp only [List.cons_append, parseVal]
          rw [skipWs_cons_false _ _ (digit_wsChar c hc)]
          have hne1 := digit_ne c '"' hc (by decide)
          have hne2 := digit_ne c '{' hc (by decide)
          have hne3 := digit_ne c '[' hc (by decide)
          have hne4 := digit_ne c 't' hc (by decide)
          have hne5 := digit_ne c 'f' hc (by decide)
          have hne6 := digit_ne c 'n' hc (by decide)
          have hne7 := digit_ne c '-' hc (by decide)
          simp [hne1, hne2, hne3, hne4, hne5, hne6, hne7, hc, hpn,
            abs_of_nonneg (by omega : (0 : ℤ) ≤ m)]
      | arr xs =>
        cases xs with
        | nil =>
          rw [show dumpsC (.arr []) = ['[', ']'] from by simp [dumpsC, dumpsList]]
          simp [parseVal, skipWs, wsChar]
        | cons x t =>
          rw [show dumpsC (.arr (x :: t)) = '[' :: (dumpsList (x :: t) ++ [']'])
            from by simp [dumpsC]]
          rw [show ('[' :: (dumpsList (x :: t) ++ [']'])) ++ rest
            = '[' :: (dumpsList (x :: t) ++ ']' :: rest) from by simp]
          simp only [parseVal]
          rw [skipWs_cons_false _ _ (by decide)]
          obtain ⟨l, hl⟩ := dumpsList_cons x t
          obtain ⟨c0, t0, hc0, hws0, hne0, hne0b⟩ := dumpsC_cons x
          have hitems := ih2 (x :: t) rest
            (by simp only [sizeJ] at hs; omega) (by simp)
          rw [show dumpsList (x :: t) ++ ']' :: rest
            = c0 :: (t0 ++ (l ++ ']' :: rest)) from by rw [hl, hc0]; simp]
          rw [show dumpsList (x :: t) ++ ']' :: rest
            = c0 :: (t0 ++ (l ++ ']' :: rest)) from by rw [hl, hc0]; simp] at hitems
          simp [skipWs, List.dropWhile_cons, hws0, hne0, hitems]
      | obj fs =>
        cases fs with
        | nil =>
          rw [show dumpsC (.obj []) = ['{', '}'] from by simp [dumpsC, dumpsFields]]
          simp [parseVal, skipWs, wsChar]
        | cons p t =>
          obtain ⟨k, v⟩ := p
          rw [show dumpsC (.obj ((k, v) :: t)) = '{' :: (dumpsFields ((k, v) :: t) ++ ['}'])
            from by simp [dumpsC]]
          rw [show ('{' :: (dumpsFields ((k, v) :: t) ++ ['}'])) ++ rest
            = '{' :: (dumpsFields ((k, v) :: t) ++ '}' :: rest) from by simp]
          simp only [parseVal]
          rw [skipWs_cons_false _ _ (by decide)]
          obtain ⟨l, hl⟩ := dumpsFields_head k v t
          have hflds := ih3 ((k, v) :: t) rest
            (by simp only [sizeJ] at hs; omega) (by simp)
          rw [show dumpsFields ((k, v) :: t) ++ '}' :: rest
            = '"' :: (l ++ '}' :: rest) from by rw [hl]; simp]
          rw [show dumpsFields ((k, v) :: t) ++ '}' :: rest
            = '"' :: (l ++ '}' :: rest) from by rw [hl]; simp] at hflds
          simp [skipWs, List.dropWhile_cons, wsChar, hflds]
    · intro xs rest hs hne
      cases xs with
      | nil => exact absurd rfl hne
      | cons x t =>
        cases t with
        | nil =>
          rw [show dumpsList [x] = dumpsC x from by simp [dumpsList]]
          simp only [parseItems]
          have hv := ih1 x (']' :: rest)
            (by simp only [sizeL] at hs; omega)
            (goodRest_cons _ _ (by decide) (by decide))
          rw [hv]
          simp [skipWs, List.dropWhile_cons, wsChar]
        | cons y t2 =>
          rw [show dumpsList (x :: y :: t2) = dumpsC x ++ ',' :: ' ' :: dumpsList (y :: t2)
            from by simp [dumpsList]]
          rw [show (dumpsC x ++ ',' :: ' ' :: dumpsList (y :: t2)) ++ ']' :: rest
            = dumpsC x ++ ',' :: ' ' :: (dumpsList (y :: t2) ++ ']' :: rest) from by simp]
          simp only [parseItems]
          have hv := ih1 x (',' :: ' ' :: (dumpsList (y :: t2) ++ ']' :: rest))
            (by simp only [sizeL] at hs; omega)
            (goodRest_cons _ _ (by decide) (by decide))
          rw [hv]
          have hits := ih2 (y :: t2) rest
            (by simp only [sizeL] at hs ⊢; have := sizeJ_pos x; omega) (by simp)
          simp [skipWs, List.dropWhile_cons, wsChar, parseItems_space, hits]
    · intro fs rest hs hne
      cases fs with
      | nil => exact absurd rfl hne
      | cons p t =>
        obtain ⟨k, v⟩ := p
        cases t with
        | nil =>
          rw [show dumpsFields [(k, v)] = '"' :: (escape k.data ++ '"' :: ':' :: ' ' :: dumpsC v)
            from by simp [dumpsFields]]
          rw [show ('"' :: (escape k.data ++ '"' :: ':' :: ' ' :: dumpsC v)) ++ '}' :: rest
            = '"' :: (escape k.data ++ '"' :: (':' :: ' ' :: (dumpsC v ++ '}' :: rest)))
            from by simp]
          simp only [parseFields]
          rw [skipWs_cons_false _ _ (by decide)]
          have hps := parseStr_escape k.data
            ((escape k.data ++ '"' :: (':' :: ' ' :: (dumpsC v ++ '}' :: rest))).length + 1)
            (':' :: ' ' :: (dumpsC v ++ '}' :: rest))
            (by have := escape_length k.data
                simp only [List.length_append, List.length_cons]
                omega)
          simp only [List.length_append, List.length_cons] at hps
          have hv := ih1 v ('}' :: rest)
            (by simp only [sizeF] at hs; omega)
            (goodRest_cons _ _ (by decide) (by decide))
          simp [hps, skipWs, List.dropWhile_cons, wsChar, parseVal_space, hv, mkData]
        | cons q t2 =>
          rw [show dumpsFields ((k, v) :: q :: t2)
            = ('"' :: (escape k.data ++ '"' :: ':' :: ' ' :: dumpsC v))
              ++ ',' :: ' ' :: dumpsFields (q :: t2) from by simp [dumpsFields]]
          rw [show (('"' :: (escape k.data ++ '"' :: ':' :: ' ' :: dumpsC v))
              ++ ',' :: ' ' :: dumpsFields (q :: t2)) ++ '}' :: rest
            = '"' :: (escape k.data ++ '"' :: (':' :: ' ' ::
                (dumpsC v ++ ',' :: ' ' :: (dumpsFields (q :: t2) ++ '}' :: rest))))
            from by simp]
          simp only [parseFields]
          rw [skipWs_cons_false _ _ (by decide)]
          have hps := parseStr_escape k.data
            ((escape k.data ++ '"' :: (':' :: ' ' ::
              (dumpsC v ++ ',' :: ' ' :: (dumpsFields (q :: t2) ++ '}' :: rest)))).length + 1)
            (':' :: ' ' :: (dumpsC v ++ ',' :: ' ' :: (dumpsFields (q :: t2) ++ '}' :: rest)))
            (by have := escape_length k.data
                simp only [List.length_append, List.length_cons]
                omega)
          simp only [List.length_append, List.length_cons] at hps
          have hv := ih1 v (',' :: ' ' :: (dumpsFields (q :: t2) ++ '}' :: rest))
            (by simp only [sizeF] at hs; omega)
            (goodRest_cons _ _ (by decide) (by decide))
          have hflds := ih3 (q :: t2) rest
            (by simp only [sizeF] at hs ⊢; have := sizeJ_pos v; omega) (by simp)
          simp [hps, skipWs, List.dropWhile_cons, wsChar, parseVal_space, hv, mkData,
            parseFields_space, hflds]

end Json

namespace Json

mutual
/-- Each node contributes at least one output character, so the input length
bounds the node count: enough fuel for `loads`. -/
theorem sizeJ_le : ∀ v : JVal, sizeJ v ≤ (dumpsC v).length
  | .null => by simp [sizeJ, dumpsC]
  | .bool true => by simp [sizeJ, dumpsC]
  | .bool false => by simp [sizeJ, dumpsC]
  | .num m e => by
    obtain ⟨c, t, hb, _⟩ := numBody_cons m.natAbs e
    by_cases hm : m < 0 <;> simp [sizeJ, dumpsC, numDumps, hm, hb]
  | .str s => by simp [sizeJ, dumpsC]
  | .arr xs => by
    have h := sizeL_le xs
    simp only [sizeJ, dumpsC, List.length_cons, List.length_append]
    omega
  | .obj fs => by
    have h := sizeF_le fs
    simp only [sizeJ, dumpsC, List.length_cons, List.length_append]
    omega

theorem sizeL_le : ∀ xs : List JVal, sizeL xs ≤ (dumpsList xs).length + 1
  | [] => by simp [sizeL, dumpsList]
  | [x] => by
    have h := sizeJ_le x
    simp only [sizeL, dumpsList, List.length_cons, List.length_append]
    omega
  | x :: y :: t => by
    have h1 := sizeJ_le x
    have h2 := sizeL_le (y :: t)
    simp only [sizeL, dumpsList, List.length_cons, List.length_append] at h2 ⊢
    omega

theorem sizeF_le : ∀ fs : List (String × JVal), sizeF fs ≤ (dumpsFields fs).length + 1
  | [] => by simp [sizeF, dumpsFields]
  | [(k, v)] => by
    have h := sizeJ_le v
    simp only [sizeF, dumpsFields, List.length_cons, List.length_append]
    omega
  | (k, v) :: q :: t => by
    have h1 := sizeJ_le v
    have h2 := sizeF_le (q :: t)
    simp only [sizeF, dumpsFields, List.length_cons, List.length_append] at h2 ⊢
    omega
end

/-- `json.loads`: parse one value, then require only whitespace to remain. -/
def loads (s : List Char) : Option JVal :=
  match parseVal (s.length + 1) s with
  | some (v, rest) => if (skipWs rest).isEmpty then some v else none
  | none => none

theorem loads_dumps (v : JVal) : loads (dumpsC v) = some v := by
  have h := (parse_dumps ((dumpsC v).length + 1)).1 v []
    (by have := sizeJ_le v; omega) trivial
  rw [List.append_nil] at h
  simp [loads, h, skipWs]

/-- The CSV import cell decoding: a non-empty cell starting with `{` or `[`
is fed to `json.loads` and kept as a string if that fails; everything else
stays a string. -/
def decodeCell : List Char → JVal
  | [] => .str ""
  | c :: t =>
    if c = '{' ∨ c = '[' then
      match loads (c :: t) with
      | some v => v
      | none => .str (String.mk (c :: t))
    else .str (String.mk (c :: t))

theorem decode_encode (v : JVal) (h : isNested v = true) :
    decodeCell (dumpsC v) = v := by
  have hl := loads_dumps v
  cases v with
  | arr xs =>
    rw [show dumpsC (.arr xs) = '[' :: (dumpsList xs ++ [']']) from by simp [dumpsC]] at hl ⊢
    simp [decodeCell, hl]
  | obj fs =>
    rw [show dumpsC (.obj fs) = '{' :: (dumpsFields fs ++ ['}']) from by simp [dumpsC]] at hl ⊢
    simp [decodeCell, hl]
  | null => simp [isNested] at h
  | bool b => simp [isNested] at h
  | num m e => simp [isNested] at h
  | str s => simp [isNested] at h

end Json

namespace Admin

open Json

/-- The per-cell CSV encoding of `export_data`: missing values become the
empty cell, nested values are serialized with `json.dumps`, scalars are
written the way Python `str` prints them. -/
def pyStr : JVal → List Char
  | .null => []
  | .bool true => ['T', 'r', 'u', 'e']
  | .bool false => ['F', 'a', 'l', 's', 'e']
  | .num m e => numDumps m e
  | .str s => s.data
  | v => dumpsC v

def encodeCell : Option JVal → List Char
  | none => []
  | some v => if isNested v then dumpsC v else pyStr v

/-- The CSV header of `export_data`: the sorted union of all document keys. -/
def exportCols (docs : List Doc) : List String :=
  (((docs.map (fun d => d.map Prod.fst)).flatten).dedup).mergeSort
    (fun a b => decide (a ≤ b))

def exportRow (cols : List String) (d : Doc) : List (List Char) :=
  cols.map (fun k => encodeCell (List.lookup k d))

/-- A parsed CSV row of `import_data`: keys in header order, each cell run
through `decodeCell`. -/
def importRow (cols : List String) (cells : List (List Char)) : Doc :=
  (cols.zip cells).map (fun p => (p.1, decodeCell p.2))

/-- The per-document fixups of `import_data`: stamp `created_at` (when
absent) and `updated_at`, and drop `_rev` unless updating existing docs. -/
def processDoc (upd : Bool) (now : String) (doc : Doc) : Doc :=
  let d2 := DB.stamp now doc
  if upd then d2 else d2.eraseP (fun p => p.1 == "_rev")

/-- CSV export: the header and one row per document. -/
def export_csv (docs : List Doc) : List String × List (List (List Char)) :=
  (exportCols docs, docs.map (exportRow (exportCols docs)))

/-- CSV import: parse every row against the header, then apply the
per-document fixups; the result is the document list handed to bulk create. -/
def import_csv (cols : List String) (rows : List (List (List Char)))
    (upd : Bool) (now : String) : List Doc :=
  (rows.map (importRow cols)).map (processDoc upd now)

theorem importRow_export (cols : List String) (d : Doc) :
    importRow cols (exportRow cols d)
      = cols.map (fun k => (k, decodeCell (encodeCell (List.lookup k d)))) := by
  induction cols with
  | nil => rfl
  | cons c t ih =>
    simp only [importRow, exportRow, List.map_cons, List.zip_cons_cons] at ih ⊢
    rw [ih]

theorem lookup_map_self (cols : List String) (f : String → Json.JVal) (k : String)
    (hnd : cols.Nodup) (hk : k ∈ cols) :
    List.lookup k (cols.map (fun x => (x, f x))) = some (f k) := by
  induction cols with
  | nil => cases hk
  | cons c t ih =>
    by_cases hkc : k = c
    · subst hkc
      simp [List.lookup]
    · have hb : (k == c) = false := by simp [hkc]
      have hkt : k ∈ t := by
        cases hk with
        | head => exact absurd rfl hkc
        | tail _ h => exact h
      simp only [List.map_cons, List.lookup, hb]
      exact ih (List.Nodup.of_cons hnd) hkt

theorem lookup_some_mem_keys (l : Doc) (k : String) (v : Json.JVal)
    (h : List.lookup k l = some v) : k ∈ l.map Prod.fst := by
  induction l with
  | nil => simp [List.lookup] at h
  | cons a t ih =>
    obtain ⟨a1, a2⟩ := a
    by_cases hka : k = a1
    · subst hka; simp
    · have hb : (k == a1) = false := by simp [hka]
      simp only [List.lookup, hb] at h
      simp [ih h]

theorem lookup_eraseP (l : Doc) (k : String) (hk : k ≠ "_rev") :
    List.lookup k (l.eraseP (fun p => p.1 == "_rev")) = List.lookup k l := by
  induction l with
  | nil => rfl
  | cons a t ih =>
    obtain ⟨a1, a2⟩ := a
    by_cases h : a1 = "_rev"
    · subst h
      have hkb : (k == "_rev") = false := by simp [hk]
      simp [List.eraseP_cons, List.lookup, hkb]
    · have hb : ((fun p => p.1 == "_rev") (a1, a2)) = false := by simp [h]
      by_cases hka : k = a1
      · subst hka
        simp [List.eraseP_cons, hb, List.lookup]
      · have hkb : (k == a1) = false := by simp [hka]
        simp [List.eraseP_cons, hb, List.lookup, hkb, ih]

theorem lookup_processDoc (upd : Bool) (now : String) (d : Doc) (k : String)
    (w : Json.JVal) (hku : k ≠ "updated_at") (hrev : upd = true ∨ k ≠ "_rev")
    (hw : List.lookup k d = some w) :
    List.lookup k (processDoc upd now d) = some w := by
  have h1 : List.lookup k (DB.stamp now d) = some w := by
    unfold DB.stamp
    by_cases hca : (List.lookup "created_at" d).isSome
    · rw [if_pos hca, DB.setKey_lookup, if_neg hku]
      exact hw
    · rw [if_neg hca]
      have hkca : k ≠ "created_at" := by
        intro he
        rw [he] at hw
        rw [hw] at hca
        simp at hca
      rw [DB.setKey_lookup, if_neg hku, DB.setKey_lookup, if_neg hkca]
      exact hw
  unfold processDoc
  cases upd with
  | true => simpa using h1
  | false =>
    have hkrev : k ≠ "_rev" := by
      cases hrev with
      | inl h => cases h
      | inr h => exact h
    simpa [lookup_eraseP _ _ hkrev] using h1

end Admin

/-- **C6** (amended): the CSV export/import round-trip restores every nested
field of every document — a value that is a dict or list is serialized to an
embedded JSON string and re-parsed to an equal structure on import — except
the `updated_at` field, which the import unconditionally overwrites with
the import timestamp, and the `_rev` field, which is stripped unless
`update_existing` is set. -/
theorem C6_csv_roundtrip (docs : List Json.Doc) (upd : Bool) (now : String)
    (i : Nat) (d : Json.Doc) (k : String) (v : Json.JVal)
    (hd : docs[i]? = some d)
    (hkv : List.lookup k d = some v)
    (hnest : Json.isNested v = true)
    (hku : k ≠ "updated_at")
    (hrev : upd = true ∨ k ≠ "_rev") :
    ∃ d', (Admin.import_csv (Admin.export_csv docs).1 (Admin.export_csv docs).2
        upd now)[i]? = some d'
      ∧ List.lookup k d' = some v := by
  refine ⟨Admin.processDoc upd now (Admin.importRow (Admin.exportCols docs)
    (Admin.exportRow (Admin.exportCols docs) d)), ?_, ?_⟩
  · simp [Admin.import_csv, Admin.export_csv, List.getElem?_map, hd]
  · have hdmem : d ∈ docs := by
      have := List.getElem?_mem hd
      exact this
    have hk1 : k ∈ d.map Prod.fst := Admin.lookup_some_mem_keys d k v hkv
    have hk2 : k ∈ (docs.map (fun d0 => d0.map Prod.fst)).flatten :=
      List.mem_flatten.mpr ⟨d.map Prod.fst, List.mem_map_of_mem _ hdmem, hk1⟩
    have hk3 : k ∈ ((docs.map (fun d0 => d0.map Prod.fst)).flatten).dedup :=
      List.mem_dedup.mpr hk2
    have hp : List.Perm (Admin.exportCols docs)
        (((docs.map (fun d0 => d0.map Prod.fst)).flatten).dedup) :=
      List.mergeSort_perm _ _
    have hmem : k ∈ Admin.exportCols docs := hp.mem_iff.mpr hk3
    have hnd : (Admin.exportCols docs).Nodup :=
      (hp.nodup_iff).mpr (List.nodup_dedup _)
    rw [Admin.importRow_export]
    apply Admin.lookup_processDoc _ _ _ _ _ hku hrev
    rw [Admin.lookup_map_self _ _ _ hnd hmem, hkv]
    simp [Admin.encodeCell, hnest, Json.decode_encode v hnest]

/-- **C6** counterexample to the claim as stated: a document whose
`updated_at` field holds a nested object does not survive the round-trip —
the import replaces it with the import timestamp string. -/
theorem C6_counterexample :
    ∃ d', (Admin.import_csv
        (Admin.export_csv [[("updated_at", Json.JVal.obj [("a", Json.JVal.num 1 0)])]]).1
        (Admin.export_csv [[("updated_at", Json.JVal.obj [("a", Json.JVal.num 1 0)])]]).2
        false "2024-06-01T00:00:00+00:00")[0]? = some d'
      ∧ List.lookup "updated_at" d' ≠ some (Json.JVal.obj [("a", Json.JVal.num 1 0)]) := by
  have hcols : Admin.exportCols [[("updated_at", Json.JVal.obj [("a", Json.JVal.num 1 0)])]]
      = ["updated_at"] := by
    simp only [Admin.exportCols, List.map_cons, List.map_nil, List.flatten,
      List.append_nil]
    rw [show (["updated_at"] : List String).dedup = ["updated_at"] from by
      simp [List.dedup_cons_of_not_mem]]
    exact List.mergeSort_singleton _
  have hrow : Admin.importRow ["updated_at"]
      (Admin.exportRow ["updated_at"] [("updated_at", Json.JVal.obj [("a", Json.JVal.num 1 0)])])
      = [("updated_at", Json.decodeCell
          (Json.dumpsC (Json.JVal.obj [("a", Json.JVal.num 1 0)])))] := by
    simp [Admin.importRow, Admin.exportRow, Admin.encodeCell, List.lookup, Json.isNested]
  have hproc : ∀ w, Admin.processDoc false "2024-06-01T00:00:00+00:00" [("updated_at", w)]
      = [("updated_at", Json.JVal.str "2024-06-01T00:00:00+00:00"),
         ("created_at", Json.JVal.str "2024-06-01T00:00:00+00:00")] := by
    intro w
    simp [Admin.processDoc, DB.stamp, DB.setKey, List.lookup, List.eraseP]
  refine ⟨[("updated_at", Json.JVal.str "2024-06-01T00:00:00+00:00"),
      ("created_at", Json.JVal.str "2024-06-01T00:00:00+00:00")], ?_, ?_⟩
  · simp [Admin.import_csv, Admin.export_csv, hcols, hrow, hproc]
    rfl
  · simp [List.lookup]

/-- Witness: a document carrying a nested object under the key `metadata`
survives the round-trip with that object intact. -/
theorem C6_csv_roundtrip_witness :
    ∃ d', (Admin.import_csv
        (Admin.export_csv [[("metadata", Json.JVal.obj [("brand", Json.JVal.str "X")])]]).1
        (Admin.export_csv [[("metadata", Json.JVal.obj [("brand", Json.JVal.str "X")])]]).2
        false "2024-06-01T00:00:00+00:00")[0]? = some d'
      ∧ List.lookup "metadata" d'
        = some (Json.JVal.obj [("brand", Json.JVal.str "X")]) :=
  C6_csv_roundtrip [[("metadata", Json.JVal.obj [("brand", Json.JVal.str "X")])]]
    false "2024-06-01T00:00:00+00:00" 0
    [("metadata", Json.JVal.obj [("brand", Json.JVal.str "X")])]
    "metadata" (Json.JVal.obj [("brand", Json.JVal.str "X")])
    rfl (by simp [List.lookup]) rfl (by decide) (Or.inr (by decide))
